import Mathlib

/-! # fs_ram.c: the single-slot in-memory file

A shallow embedding of `src/fs_ram.c`.  The translation unit owns one global
`v_file` of type `ram_file_t`; every function of the file is embedded as a pure
function that takes the current value of `v_file` and returns its result
together with the new value.

Modelling conventions

* `size_t` values are natural numbers; every `size_t` addition and
  multiplication of the source is reduced modulo `SIZE_MAX + 1`.
* A heap block is the list of its bytes; `NULL` is `none`.
* A pointer into a block or into the staging array is its byte offset from the
  start of that block or array.
* `realloc` may fail: the environment carries an oracle telling, for the
  i-th call of `realloc`, whether it returns a block.
-/

namespace FsRam

/-- A byte (C `char`).  The code only moves bytes around. -/
abbrev Byte := UInt8

/-- The execution environment: the width of `size_t` and the behaviour of the
allocator (`realloc_ok i` tells whether the call number `i` of `realloc`,
counted from 0, succeeds). -/
structure Env where
  size_bits : Nat
  realloc_ok : Nat → Bool

/-- The number of values of `size_t`, that is `SIZE_MAX + 1`. -/
def Env.SIZE_MOD (env : Env) : Nat := 2 ^ env.size_bits

/-- Modelled from the spec: the type `stream_block_tx_buffer_t`, declared in
`grbl/stream.h`, which is not among the sources.  It is the staging buffer: a
fixed-capacity byte array `data` (its list length is `sizeof data`, the
capacity), the used length, the capacity field `max_length`, and the write
pointer `s`, kept as an offset into `data` (`none` for `NULL`). -/
structure stream_block_tx_buffer_t where
  length : Nat
  max_length : Nat
  s : Option Nat
  data : List Byte
deriving DecidableEq

/-- Modelled from the spec: the type `vfs_file_t`, declared in `grbl/vfs.h`,
which is not among the sources.  Only the two fields `fs_ram.c` uses are kept:
the reported size and the handle, a flag that is 0 or 1. -/
structure vfs_file_t where
  size : Nat
  handle : Nat
deriving DecidableEq

/-- Modelled from the spec: the type `vfs_stat_t`, declared in `grbl/vfs.h`,
which is not among the sources.  Only the field `fs_ram.c` writes is kept. -/
structure vfs_stat_t where
  st_size : Nat
deriving DecidableEq

/-- The type `ram_file_t`.  `data` is the heap block holding the committed
content (`none` for `NULL`), `pos` the read pointer as an offset from the
address `data` had when `pos` was assigned (`none` for `NULL`).
`heap_calls` is a ghost field, absent from the C struct: the number of calls of
`realloc` made so far; it indexes the allocator oracle. -/
structure ram_file_t where
  data : Option (List Byte)
  pos : Option Nat
  write : Bool
  len : Nat
  remaining : Nat
  file : vfs_file_t
  txbuf : stream_block_tx_buffer_t
  heap_calls : Nat
deriving DecidableEq

/-- The value of `static ram_file_t v_file = {0}` for a staging array of
`cap` bytes. -/
def v_file_init (cap : Nat) : ram_file_t :=
  { data := none, pos := none, write := false, len := 0, remaining := 0,
    file := { size := 0, handle := 0 },
    txbuf := { length := 0, max_length := 0, s := none, data := List.replicate cap 0 },
    heap_calls := 0 }

/-- The `n` bytes of memory that start where the list `src` starts.  Bytes
beyond the end of `src` are indeterminate in C; they read as 0 here. -/
def fetch (src : List Byte) (n : Nat) : List Byte :=
  (src ++ List.replicate n 0).take n

/-- Overwrite the bytes of `dst` from offset `off` on with `bs`.  A store that
runs past the end of `dst` is undefined in C; here the excess is dropped. -/
def store (dst : List Byte) (off : Nat) (bs : List Byte) : List Byte :=
  dst.take off ++ bs.take (dst.length - off) ++ dst.drop (off + bs.length)

/-- The call `memcpy(dst + off, src, n)`: returns the new content of `dst`. -/
def memcpy (dst : List Byte) (off : Nat) (src : List Byte) (n : Nat) : List Byte :=
  store dst off (fetch src n)

/-- The call `realloc(ptr, size)` of the C library, made as call number
`call`: on success a block of `size` bytes that starts with the old content
(new bytes are indeterminate in C and read as 0 here), on failure `NULL`. -/
def realloc (env : Env) (call : Nat) (ptr : Option (List Byte)) (size : Nat) :
    Option (List Byte) :=
  if env.realloc_ok call then some (fetch (ptr.getD []) size) else none

/-- The function `ram_write` (lines 60-84): the result and the new `v_file`.
On failure the old block is freed by the code, so `data` is `NULL` either way
of the inner test. -/
def ram_write (env : Env) (v_file : ram_file_t) (s : List Byte) (length : Nat) :
    Bool × ram_file_t :=
  match realloc env v_file.heap_calls v_file.data ((v_file.len + length) % env.SIZE_MOD) with
  | none =>
    (false, { v_file with len := 0, data := none, heap_calls := v_file.heap_calls + 1 })
  | some data =>
    (true, { v_file with
      data := some (memcpy data v_file.len s length)
      len := (v_file.len + length) % env.SIZE_MOD
      txbuf := { v_file.txbuf with s := some 0, length := 0 }
      heap_calls := v_file.heap_calls + 1 })

/-- The test `strchr(mode, 'w') != NULL`. -/
def mode_has_w (mode : String) : Bool := mode.toList.contains 'w'

/-- The function `fs_open` (lines 86-110).  The result is `none` for `NULL`
and the file structure pointed to otherwise. -/
def fs_open (v_file : ram_file_t) (_filename : String) (mode : String) :
    Option vfs_file_t × ram_file_t :=
  let v_file := { v_file with write := mode_has_w mode }
  if v_file.write then
    if v_file.file.handle ≠ 0 then (none, v_file)
    else
      let v_file := { v_file with
        len := 0
        file := { v_file.file with handle := 1 }
        txbuf := { v_file.txbuf with
          s := some 0, length := 0, max_length := v_file.txbuf.data.length }
        data := none }
      (if v_file.file.handle = 0 then none else some v_file.file, v_file)
  else
    let v_file := { v_file with
      file := { v_file.file with size := v_file.len }
      pos := v_file.data.map (fun _ => 0)
      remaining := v_file.len }
    (if v_file.file.handle = 0 then none else some v_file.file, v_file)

/-- The function `fs_close` (lines 112-125). -/
def fs_close (env : Env) (v_file : ram_file_t) : ram_file_t :=
  if v_file.write then
    if v_file.txbuf.length ≠ 0 then
      (ram_write env v_file v_file.txbuf.data v_file.txbuf.length).2
    else v_file
  else
    { v_file with data := none, file := { v_file.file with handle := 0 } }

/-- The function `fs_read` (lines 127-141).  Returns the count, the bytes
copied into the caller's buffer, and the new state.  The bytes are read from
the current block at the offset of `pos`; when the block `pos` pointed into
has been freed or moved they are indeterminate in C, and only their number is
meaningful here.  `rcount` never exceeds `remaining`, so the final
subtraction does not wrap. -/
def fs_read (env : Env) (v_file : ram_file_t) (size count : Nat) :
    Nat × List Byte × ram_file_t :=
  match v_file.pos with
  | some p =>
    let rcount := if (size * count) % env.SIZE_MOD > v_file.remaining
      then v_file.remaining else (size * count) % env.SIZE_MOD
    (rcount, fetch ((v_file.data.getD []).drop p) rcount,
      { v_file with pos := some (p + rcount), remaining := v_file.remaining - rcount })
  | none => (0, [], { v_file with remaining := 0 })

/-- The function `fs_write` (lines 143-164): the return value and the new
`v_file`.  `flushed` is the outcome of the first `if`: the result of
`ram_write` when the staged bytes are committed, `true` otherwise. -/
def fs_write (env : Env) (v_file : ram_file_t) (buffer : List Byte) (size count : Nat) :
    Nat × ram_file_t :=
  let length := (size * count) % env.SIZE_MOD
  if length = 0 ∨ v_file.file.handle = 0 then (0, v_file)
  else
    let flushed :=
      if v_file.txbuf.length ≠ 0 ∧
          (v_file.txbuf.length + length) % env.SIZE_MOD > v_file.txbuf.max_length then
        ram_write env v_file v_file.txbuf.data v_file.txbuf.length
      else (true, v_file)
    if flushed.1 = false then (0, flushed.2)
    else
      let v_file := flushed.2
      if v_file.txbuf.length = 0 ∧ length > v_file.txbuf.max_length then
        let r := ram_write env v_file buffer length
        (if r.1 then length else 0, r.2)
      else
        (length, { v_file with
          txbuf := { v_file.txbuf with
            data := match v_file.txbuf.s with
              | some o => memcpy v_file.txbuf.data o buffer length
              | none => v_file.txbuf.data
            length := (v_file.txbuf.length + length) % env.SIZE_MOD
            s := v_file.txbuf.s.map (fun o => o + length) } })

/-- The function `fs_tell` (lines 166-169): an unsigned subtraction. -/
def fs_tell (env : Env) (v_file : ram_file_t) : Nat :=
  (v_file.len + env.SIZE_MOD - v_file.remaining) % env.SIZE_MOD

/-- The function `fs_eof` (lines 171-174). -/
def fs_eof (v_file : ram_file_t) : Bool := v_file.remaining = 0

/-- The function `fs_unlink` (lines 176-186). -/
def fs_unlink (v_file : ram_file_t) (_filename : String) : Int × ram_file_t :=
  (0, { v_file with data := none, file := { v_file.file with handle := 0 } })

/-- The function `fs_stat` (lines 202-209): the status and the new value of `*st`. -/
def fs_stat (v_file : ram_file_t) (_filename : String) (st : vfs_stat_t) :
    Int × vfs_stat_t :=
  (if v_file.file.handle ≠ 0 then 0 else -1,
   if v_file.file.handle ≠ 0 then { st with st_size := v_file.len } else st)

/-- The function `fs_reset` (lines 211-221).  The chained hook `driver_reset`
belongs to the host; it is passed in as its effect on `v_file`. -/
def fs_reset (driver_reset : ram_file_t → ram_file_t) (v_file : ram_file_t) : ram_file_t :=
  let v_file := driver_reset v_file
  { v_file with data := none, file := { v_file.file with handle := 0 } }

/-! ## Sessions: sequences of calls -/

/-- The content of the committed block (empty when `data` is `NULL`). -/
def committed (v_file : ram_file_t) : List Byte := v_file.data.getD []

/-- The bytes held in the staging buffer: the first `txbuf.length` bytes of
`txbuf.data`, which is what `fs_close` and the flush hand to `ram_write`. -/
def staged (v_file : ram_file_t) : List Byte :=
  v_file.txbuf.data.take v_file.txbuf.length

/-- One call `fs_write(buffer, size, count, file)`. -/
structure WriteCall where
  buffer : List Byte
  size : Nat
  count : Nat
deriving DecidableEq

/-- The caller's buffer holds exactly the `size * count` bytes it announces. -/
def WriteCall.wf (c : WriteCall) : Prop := c.buffer.length = c.size * c.count

instance (c : WriteCall) : Decidable c.wf := by
  unfold WriteCall.wf; infer_instance

/-- The bytes handed to a sequence of `fs_write` calls, in call order. -/
def written : List WriteCall → List Byte
  | [] => []
  | c :: cs => c.buffer ++ written cs

/-- Consecutive `fs_write` calls; the return values are dropped. -/
def fs_writes (env : Env) (v_file : ram_file_t) : List WriteCall → ram_file_t
  | [] => v_file
  | c :: cs => fs_writes env (fs_write env v_file c.buffer c.size c.count).2 cs

/-- A write session: `fs_open` with `mode`, the writes, `fs_close`. -/
def write_session (env : Env) (v_file : ram_file_t) (filename mode : String)
    (calls : List WriteCall) : ram_file_t :=
  fs_close env (fs_writes env (fs_open v_file filename mode).2 calls)

/-- Consecutive `fs_read` calls with the request sizes `(size, count)` of
`reqs`: the return values, the bytes copied out (concatenated), the state. -/
def fs_reads (env : Env) (v_file : ram_file_t) :
    List (Nat × Nat) → List Nat × List Byte × ram_file_t
  | [] => ([], [], v_file)
  | r :: rs =>
    let x := fs_read env v_file r.1 r.2
    let y := fs_reads env x.2.2 rs
    (x.1 :: y.1, x.2.1 ++ y.2.1, y.2.2)

/-- The loop "call `fs_read` until it returns 0", the call number `i` asking
for `req i = (size, count)`; `fuel` bounds the number of calls.  Returns the
bytes copied out and the state after the read that returned 0. -/
def read_until_zero (env : Env) (req : Nat → Nat × Nat) :
    Nat → Nat → ram_file_t → Option (List Byte × ram_file_t)
  | 0, _, _ => none
  | fuel + 1, i, v_file =>
    let x := fs_read env v_file (req i).1 (req i).2
    if x.1 = 0 then some ([], x.2.2)
    else (read_until_zero env req fuel (i + 1) x.2.2).map (fun r => (x.2.1 ++ r.1, r.2))

/-- A call of one of the entry points that change `v_file`. -/
inductive Op where
  | fopen (filename mode : String)
  | fclose
  | fread (size count : Nat)
  | fwrite (buffer : List Byte) (size count : Nat)
  | funlink (filename : String)
  | reset

/-- The effect of one call on `v_file`.  The host's reset hook has no access
to the static `v_file`, so it is the identity here. -/
def step (env : Env) (v_file : ram_file_t) : Op → ram_file_t
  | .fopen filename mode => (fs_open v_file filename mode).2
  | .fclose => fs_close env v_file
  | .fread size count => (fs_read env v_file size count).2.2
  | .fwrite buffer size count => (fs_write env v_file buffer size count).2
  | .funlink filename => (fs_unlink v_file filename).2
  | .reset => fs_reset id v_file

/-- The effect of a sequence of calls. -/
def run (env : Env) (v_file : ram_file_t) (ops : List Op) : ram_file_t :=
  ops.foldl (step env) v_file

/-- The states of `v_file` that calls can produce from the initial state,
for a staging array of `cap` bytes. -/
def Reachable (env : Env) (cap : Nat) (v_file : ram_file_t) : Prop :=
  ∃ ops : List Op, run env (v_file_init cap) ops = v_file

/-- The state of `v_file` inside a write session that has been handed the
bytes `S` so far: a handle is out, the staging buffer is set up as `fs_open`
leaves it and filled up to `txbuf.length`, the block has the recorded size, and
the committed bytes followed by the staged bytes are `S`. -/
structure WInv (f : ram_file_t) (S : List Byte) : Prop where
  handle : f.file.handle ≠ 0
  write : f.write = true
  max : f.txbuf.max_length = f.txbuf.data.length
  fits : f.txbuf.length ≤ f.txbuf.max_length
  s : f.txbuf.s = some f.txbuf.length
  len : (committed f).length = f.len
  stream : committed f ++ staged f = S

/-- The state of `v_file` inside a read session: the read pointer is
`len - remaining` bytes into the block (and `NULL` when there is no block),
the block has the recorded size, and `remaining` does not exceed `len`. -/
structure RInv (env : Env) (f : ram_file_t) : Prop where
  pos : f.pos = f.data.map (fun _ => f.len - f.remaining)
  len : (committed f).length = f.len
  rem : f.remaining ≤ f.len
  rep : f.len < env.SIZE_MOD

/-- What every call preserves: a block, when there is one, has the recorded
size; with a handle out and no block the recorded size is 0; the recorded size
is a `size_t` value. -/
structure Inv (env : Env) (f : ram_file_t) : Prop where
  block : ∀ d, f.data = some d → d.length = f.len
  absent : f.file.handle ≠ 0 → f.data = none → f.len = 0
  rep : f.len < env.SIZE_MOD

/-- The states inside a read session: reached from a reachable state by a
successful read-mode `fs_open` followed by `fs_read` calls only. -/
def ReadSession (env : Env) (cap : Nat) (f : ram_file_t) : Prop :=
  ∃ (g : ram_file_t) (filename mode : String) (reqs : List (Nat × Nat)),
    Reachable env cap g ∧ mode_has_w mode = false ∧
    (fs_open g filename mode).1 ≠ none ∧
    f = (fs_reads env (fs_open g filename mode).2 reqs).2.2

/-- A full cycle: a write session, a read-mode `fs_open`, reads, `fs_close`. -/
def read_cycle (env : Env) (v_file : ram_file_t) (fw mw : String) (calls : List WriteCall)
    (fr mr : String) (reqs : List (Nat × Nat)) : ram_file_t :=
  fs_close env (fs_reads env (fs_open (write_session env v_file fw mw calls) fr mr).2 reqs).2.2

/-! ## Concrete inputs -/

/-- A 32-bit target on which every allocation succeeds. -/
def env32 : Env := { size_bits := 32, realloc_ok := fun _ => true }

/-- The bytes of `"hello "`. -/
def hello : List Byte := [104, 101, 108, 108, 111, 32]

/-- The bytes of `"world"`. -/
def world : List Byte := [119, 111, 114, 108, 100]

/-- The two writes of the scenario: `"hello "` (6 bytes), then `"world"` (5 bytes). -/
def hello_world_calls : List WriteCall := [⟨hello, 1, 6⟩, ⟨world, 1, 5⟩]

/-- The scenario's state after the write session, for a staging array of 8 bytes. -/
def hello_world_file : ram_file_t :=
  write_session env32 (v_file_init 8) "/ram/f" "w" hello_world_calls

/-- The scenario's state inside the read session, before any read. -/
def hello_world_reading : ram_file_t := (fs_open hello_world_file "/ram/f" "r").2

/-- A write session in progress: `"hello "` staged, nothing committed. -/
def hello_writing : ram_file_t :=
  (fs_write env32 (fs_open (v_file_init 8) "/ram/f" "w").2 hello 1 6).2

/-- The scenario's state after a full cycle: written, closed, opened for
reading, read with one 20-byte read, closed. -/
def hello_world_cycled : ram_file_t :=
  read_cycle env32 (v_file_init 8) "/ram/f" "w" hello_world_calls "/ram/f" "r" [(1, 20)]

/-- A read session closed early: 3 bytes written, 1 of them read, then closed. -/
def stale_read_state : ram_file_t :=
  run env32 (v_file_init 8)
    [.fopen "/ram/f" "w", .fwrite [1, 2, 3] 1 3, .fclose,
     .fopen "/ram/f" "r", .fread 1 1, .fclose]

/-- A 32-bit target on which every allocation fails. -/
def env32_nomem : Env := { size_bits := 32, realloc_ok := fun _ => false }

/-- A 32-bit target on which the first allocation fails and the later ones
succeed. -/
def env32_fail_first : Env := { size_bits := 32, realloc_ok := fun i => i != 0 }

/-- A write session opened after a read session: 3 bytes written and closed,
opened for reading, closed, opened for writing again. -/
def reopened_for_write : ram_file_t :=
  run env32 (v_file_init 8)
    [.fopen "/ram/f" "w", .fwrite [1, 2, 3] 1 3, .fclose,
     .fopen "/ram/f" "r", .fclose, .fopen "/ram/f" "w"]

/-- The lengths that `fs_write` passes to `ram_write`, in call order: the
staged length when the first `if` commits the staged bytes, then the incoming
length when the second `if` commits the caller's bytes directly.  Each entry is
one commit, that is one call of `realloc`. -/
def fs_write_commits (env : Env) (v_file : ram_file_t) (size count : Nat) : List Nat :=
  let length := (size * count) % env.SIZE_MOD
  if length = 0 ∨ v_file.file.handle = 0 then []
  else if v_file.txbuf.length ≠ 0 ∧
      (v_file.txbuf.length + length) % env.SIZE_MOD > v_file.txbuf.max_length then
    let flushed := ram_write env v_file v_file.txbuf.data v_file.txbuf.length
    v_file.txbuf.length ::
      (if flushed.1 = false then []
       else if flushed.2.txbuf.length = 0 ∧ length > flushed.2.txbuf.max_length then [length]
       else [])
  else if v_file.txbuf.length = 0 ∧ length > v_file.txbuf.max_length then [length]
  else []

/-- The length that `fs_close` passes to `ram_write`, if it calls it. -/
def fs_close_commits (v_file : ram_file_t) : List Nat :=
  if v_file.write then
    if v_file.txbuf.length ≠ 0 then [v_file.txbuf.length] else []
  else []

/-- The lengths of all commits made by consecutive `fs_write` calls followed
by `fs_close`, in order. -/
def session_commits (env : Env) (v_file : ram_file_t) : List WriteCall → List Nat
  | [] => fs_close_commits v_file
  | c :: cs =>
    fs_write_commits env v_file c.size c.count ++
      session_commits env (fs_write env v_file c.buffer c.size c.count).2 cs

/-- A fresh write session on a staging array of 8 bytes. -/
def fresh_writing : ram_file_t := (fs_open (v_file_init 8) "/ram/f" "w").2

/-- A payload of 3 * 8 + 1 bytes. -/
def payload25 : List Byte := List.replicate 25 65

/-- The state after `"hello "` has been staged and the flush triggered by
writing `"world"` has failed for lack of memory. -/
def flush_failed : ram_file_t :=
  run env32_fail_first (v_file_init 8)
    [.fopen "/ram/f" "w", .fwrite hello 1 6, .fwrite world 1 5]

/-- The `"hello world"` scenario after the two writes, before `fs_close`. -/
def hello_world_writing : ram_file_t :=
  fs_writes env32 (fs_open (v_file_init 8) "/ram/f" "w").2 hello_world_calls

/-- Any two consecutive entries of a commit log together exceed `cap`. -/
def pairs_exceed (cap : Nat) : List Nat → Prop
  | a :: b :: rest => cap < a + b ∧ pairs_exceed cap (b :: rest)
  | _ => True

/-- The sizes of a call fit the address space: for a write, the
`size * count` bytes of the caller's buffer and the `cap` bytes of the staging
array are distinct objects, so together they are fewer than `SIZE_MAX + 1`
bytes; in particular `size * count` does not overflow. -/
def Op.sized (env : Env) (cap : Nat) : Op → Prop
  | .fwrite _ size count => size * count + cap < env.SIZE_MOD
  | _ => True

/-- The `memcpy` into the staging array that `fs_write` makes (line 159), when
the call gets that far: the destination offset `txbuf.s - txbuf.data` and the
number of bytes copied.  `none` when the call returns before, or when
`txbuf.s` is `NULL`. -/
def fs_write_append (env : Env) (v_file : ram_file_t) (size count : Nat) :
    Option (Nat × Nat) :=
  let length := (size * count) % env.SIZE_MOD
  if length = 0 ∨ v_file.file.handle = 0 then none
  else
    let flushed :=
      if v_file.txbuf.length ≠ 0 ∧
          (v_file.txbuf.length + length) % env.SIZE_MOD > v_file.txbuf.max_length then
        ram_write env v_file v_file.txbuf.data v_file.txbuf.length
      else (true, v_file)
    if flushed.1 = false then none
    else if flushed.2.txbuf.length = 0 ∧ length > flushed.2.txbuf.max_length then none
    else flushed.2.txbuf.s.map (fun o => (o, length))

/-- The staging bounds that every call preserves: the array has `cap` bytes,
the used length is within `max_length`, `max_length` is within `cap`, and it
is `cap` whenever the handle flag is set. -/
structure SInv (cap : Nat) (f : ram_file_t) : Prop where
  array : f.txbuf.data.length = cap
  fits : f.txbuf.length ≤ f.txbuf.max_length
  max : f.txbuf.max_length ≤ cap
  opened : f.file.handle ≠ 0 → f.txbuf.max_length = cap

/-- With the handle flag set, the staging write pointer stands at the used
length. -/
def PInv (f : ram_file_t) : Prop :=
  f.file.handle ≠ 0 → f.txbuf.s = some f.txbuf.length

/-! ## The memory model -/

theorem fetch_length (src : List Byte) (n : Nat) : (fetch src n).length = n := by
  simp [fetch]

theorem fetch_of_le (src : List Byte) (n : Nat) (h : n ≤ src.length) :
    fetch src n = src.take n := by
  simp [fetch, List.take_append_of_le_length h]

theorem fetch_all (src : List Byte) : fetch src src.length = src := by
  rw [fetch_of_le _ _ (le_refl _), List.take_length]

theorem fetch_zero (src : List Byte) : fetch src 0 = [] := by
  simp [fetch]

theorem store_length (dst : List Byte) (off : Nat) (bs : List Byte) :
    (store dst off bs).length = dst.length := by
  simp [store]; omega

theorem fetch_grow (d : List Byte) (n : Nat) :
    fetch d (d.length + n) = d ++ List.replicate n 0 := by
  simp [fetch, List.take_append_eq_append_take]

theorem store_at_end (d pad bs : List Byte) (h : pad.length = bs.length) :
    store (d ++ pad) d.length bs = d ++ bs := by
  simp [store, h]

theorem store_take (dst : List Byte) (off : Nat) (bs : List Byte)
    (h : off + bs.length ≤ dst.length) :
    (store dst off bs).take (off + bs.length) = dst.take off ++ bs := by
  have h1 : bs.length ≤ dst.length - off := by omega
  have h2 : (dst.take off ++ bs.take (dst.length - off)).length = off + bs.length := by
    simp [List.length_take]; omega
  unfold store
  rw [List.take_append_of_le_length (by rw [h2]), ← h2, List.take_length,
    List.take_of_length_le h1]

/-- A successful `realloc` followed by the `memcpy` of `ram_write` appends the
`n` source bytes to the old block, when the block has the recorded size. -/
theorem realloc_memcpy (d s : List Byte) (n : Nat) :
    memcpy (fetch d (d.length + n)) d.length s n = d ++ fetch s n := by
  rw [fetch_grow, memcpy, store_at_end]
  simp [fetch_length]

theorem SIZE_MOD_pos (env : Env) : 0 < env.SIZE_MOD := by
  unfold Env.SIZE_MOD; positivity

/-- The effect of `ram_write` when `realloc` succeeds, the block has the
recorded size and the new size is representable. -/
theorem ram_write_ok (env : Env) (f : ram_file_t) (s : List Byte) (n : Nat)
    (hok : env.realloc_ok f.heap_calls = true)
    (hlen : (committed f).length = f.len)
    (hfit : f.len + n < env.SIZE_MOD) :
    ram_write env f s n =
      (true, { f with
        data := some (committed f ++ fetch s n)
        len := f.len + n
        txbuf := { f.txbuf with s := some 0, length := 0 }
        heap_calls := f.heap_calls + 1 }) := by
  unfold committed at hlen ⊢
  simp only [ram_write, realloc, hok, if_true, Nat.mod_eq_of_lt hfit]
  rw [← hlen, realloc_memcpy]

/-- The effect of `ram_write` when `realloc` fails. -/
theorem ram_write_fail (env : Env) (f : ram_file_t) (s : List Byte) (n : Nat)
    (hok : env.realloc_ok f.heap_calls = false) :
    ram_write env f s n =
      (false, { f with len := 0, data := none, heap_calls := f.heap_calls + 1 }) := by
  simp [ram_write, realloc, hok]

/-! ## Write sessions -/

theorem winv_length_eq {f : ram_file_t} {S : List Byte} (h : WInv f S) :
    S.length = f.len + f.txbuf.length := by
  have h1 := h.fits
  have h2 := h.max
  rw [← h.stream, List.length_append, h.len, staged, List.length_take]
  omega

/-- Committing the staged bytes keeps the stream and empties the staging buffer. -/
theorem flush_ok (env : Env) (f : ram_file_t) (S : List Byte) (h : WInv f S)
    (hok : env.realloc_ok f.heap_calls = true) (hfit : S.length < env.SIZE_MOD) :
    ∃ g, ram_write env f f.txbuf.data f.txbuf.length = (true, g) ∧ WInv g S ∧
      g.txbuf.length = 0 ∧ g.txbuf.max_length = f.txbuf.max_length ∧ committed g = S ∧
      g.heap_calls = f.heap_calls + 1 := by
  have hS := winv_length_eq h
  obtain ⟨hh, hw, hmax, hfits, hs, hlen, hstr⟩ := h
  refine ⟨_, ram_write_ok env f _ _ hok hlen (by omega), ?_, rfl, rfl, ?_, rfl⟩
  · rw [fetch_of_le _ _ (by omega)]
    refine ⟨hh, hw, hmax, Nat.zero_le _, rfl, ?_, ?_⟩
    · simp only [committed, Option.getD_some, List.length_append, List.length_take]
      unfold committed at hlen
      omega
    · simpa [committed, staged] using hstr
  · rw [fetch_of_le _ _ (by omega)]
    simpa [committed, staged] using hstr

/-- Committing the caller's bytes directly, with nothing staged. -/
theorem bypass_ok (env : Env) (f : ram_file_t) (S buffer : List Byte) (h : WInv f S)
    (h0 : f.txbuf.length = 0)
    (hok : env.realloc_ok f.heap_calls = true)
    (hfit : S.length + buffer.length < env.SIZE_MOD) :
    ∃ g, ram_write env f buffer buffer.length = (true, g) ∧ WInv g (S ++ buffer) ∧
      g.txbuf.length = 0 ∧ committed g = S ++ buffer ∧
      g.heap_calls = f.heap_calls + 1 := by
  have hS := winv_length_eq h
  obtain ⟨hh, hw, hmax, hfits, hs, hlen, hstr⟩ := h
  have hc : committed f = S := by simpa [staged, h0] using hstr
  refine ⟨_, ram_write_ok env f _ _ hok hlen (by omega), ?_, rfl, ?_, rfl⟩
  · rw [fetch_all]
    refine ⟨hh, hw, hmax, Nat.zero_le _, rfl, ?_, ?_⟩
    · simp only [committed, Option.getD_some, List.length_append]
      unfold committed at hlen
      omega
    · simp [committed, staged, ← hc]
  · rw [fetch_all]
    simp [committed, ← hc]

/-- Appending the caller's bytes to the staging buffer when they fit. -/
theorem stage_ok (env : Env) (f : ram_file_t) (S buffer : List Byte) (h : WInv f S)
    (hroom : f.txbuf.length + buffer.length ≤ f.txbuf.max_length)
    (hfit : S.length + buffer.length < env.SIZE_MOD) :
    WInv { f with
      txbuf := { f.txbuf with
        data := match f.txbuf.s with
          | some o => memcpy f.txbuf.data o buffer buffer.length
          | none => f.txbuf.data
        length := (f.txbuf.length + buffer.length) % env.SIZE_MOD
        s := f.txbuf.s.map (fun o => o + buffer.length) } } (S ++ buffer) := by
  have hS := winv_length_eq h
  obtain ⟨hh, hw, hmax, hfits, hs, hlen, hstr⟩ := h
  have hT : (f.txbuf.length + buffer.length) % env.SIZE_MOD = f.txbuf.length + buffer.length :=
    Nat.mod_eq_of_lt (by omega)
  rw [hT, hs]
  refine ⟨hh, hw, ?_, hroom, rfl, hlen, ?_⟩
  · simp only [memcpy, store_length]; exact hmax
  · simp only [committed, staged, memcpy, fetch_all] at hstr ⊢
    rw [store_take _ _ _ (by omega), ← List.append_assoc, hstr]

theorem fs_write_winv (env : Env) (f : ram_file_t) (S buffer : List Byte) (size count : Nat)
    (h : WInv f S) (hok : ∀ i, env.realloc_ok i = true)
    (hwf : buffer.length = size * count)
    (hfit : S.length + buffer.length < env.SIZE_MOD) :
    (fs_write env f buffer size count).1 = buffer.length ∧
      WInv (fs_write env f buffer size count).2 (S ++ buffer) := by
  have hS := winv_length_eq h
  have hh := h.handle
  have hL : (size * count) % env.SIZE_MOD = buffer.length := by
    rw [← hwf]; exact Nat.mod_eq_of_lt (by omega)
  have hT : (f.txbuf.length + buffer.length) % env.SIZE_MOD = f.txbuf.length + buffer.length :=
    Nat.mod_eq_of_lt (by omega)
  unfold fs_write
  simp only [hL, hT]
  by_cases hz : buffer.length = 0
  · have hb : buffer = [] := List.length_eq_zero.mp hz
    simp only [hz, true_or, if_true]
    subst hb
    exact ⟨trivial, by simpa using h⟩
  · simp only [hz, hh, or_self, if_false]
    by_cases hfl : f.txbuf.length ≠ 0 ∧ f.txbuf.length + buffer.length > f.txbuf.max_length
    · obtain ⟨g, hg, hgi, hg0, hgm, -, -⟩ := flush_ok env f S h (hok _) (by omega)
      rw [if_pos hfl, hg]
      simp only [Bool.true_eq_false, if_false]
      by_cases hby : buffer.length > g.txbuf.max_length
      · obtain ⟨g2, hg2, hg2i, -, -, -⟩ := bypass_ok env g S buffer hgi hg0 (hok _) hfit
        rw [if_pos ⟨hg0, hby⟩, hg2]
        exact ⟨rfl, hg2i⟩
      · rw [if_neg (fun hc => hby hc.2)]
        exact ⟨rfl, stage_ok env g S buffer hgi (by omega) hfit⟩
    · rw [if_neg hfl]
      simp only [Bool.true_eq_false, if_false]
      by_cases hby : f.txbuf.length = 0 ∧ buffer.length > f.txbuf.max_length
      · obtain ⟨g2, hg2, hg2i, -, -, -⟩ := bypass_ok env f S buffer h hby.1 (hok _) hfit
        rw [if_pos hby, hg2]
        exact ⟨rfl, hg2i⟩
      · rw [if_neg hby]
        refine ⟨rfl, stage_ok env f S buffer h ?_ hfit⟩
        by_contra hc
        by_cases h0 : f.txbuf.length = 0
        · exact hby ⟨h0, by omega⟩
        · exact hfl ⟨h0, by omega⟩

/-- A write-mode `fs_open` with no handle out succeeds and starts a write
session that has been handed no bytes. -/
theorem fs_open_w_ok (f : ram_file_t) (filename mode : String)
    (hh : f.file.handle = 0) (hw : mode_has_w mode = true) :
    (fs_open f filename mode).1 ≠ none ∧ WInv (fs_open f filename mode).2 [] := by
  simp only [fs_open, hw, hh]
  refine ⟨by simp, ?_⟩
  simp only [ne_eq, not_true_eq_false, if_false, if_true]
  exact ⟨by simp, rfl, rfl, Nat.zero_le _, rfl, rfl, by simp [committed, staged]⟩

theorem written_append (xs ys : List WriteCall) :
    written (xs ++ ys) = written xs ++ written ys := by
  induction xs with
  | nil => rfl
  | cons c cs ih => simp [written, ih]

theorem fs_writes_winv (env : Env) (calls : List WriteCall) :
    ∀ (f : ram_file_t) (S : List Byte), WInv f S →
      (∀ i, env.realloc_ok i = true) → (∀ c ∈ calls, c.wf) →
      S.length + (written calls).length < env.SIZE_MOD →
      WInv (fs_writes env f calls) (S ++ written calls) := by
  induction calls with
  | nil => intro f S h _ _ _; simpa [fs_writes, written] using h
  | cons c cs ih =>
    intro f S h hok hwf hfit
    simp only [written, List.length_append] at hfit
    have h1 := (fs_write_winv env f S c.buffer c.size c.count h hok
      (hwf c (List.mem_cons_self _ _)) (by omega)).2
    have h2 := ih _ _ h1 hok (fun x hx => hwf x (List.mem_cons_of_mem _ hx))
      (by simp only [List.length_append]; omega)
    simpa [fs_writes, written] using h2

/-- The effect of `fs_close` in a write session: the staged bytes are committed. -/
theorem fs_close_winv (env : Env) (f : ram_file_t) (S : List Byte) (h : WInv f S)
    (hok : ∀ i, env.realloc_ok i = true) (hfit : S.length < env.SIZE_MOD) :
    WInv (fs_close env f) S ∧ (fs_close env f).txbuf.length = 0 ∧
      committed (fs_close env f) = S ∧ (fs_close env f).len = S.length := by
  have hS := winv_length_eq h
  unfold fs_close
  rw [if_pos h.write]
  by_cases h0 : f.txbuf.length = 0
  · rw [if_neg (by simpa using h0)]
    have hc : committed f = S := by simpa [staged, h0] using h.stream
    exact ⟨h, h0, hc, by omega⟩
  · obtain ⟨g, hg, hgi, hg0, -, hgc, -⟩ := flush_ok env f S h (hok _) hfit
    rw [if_pos h0, hg]
    have := winv_length_eq hgi
    exact ⟨hgi, hg0, hgc, by simp only; omega⟩

/-- A whole write session from a state with no handle out. -/
theorem write_session_ok (env : Env) (f : ram_file_t) (filename mode : String)
    (calls : List WriteCall)
    (hh : f.file.handle = 0) (hw : mode_has_w mode = true)
    (hok : ∀ i, env.realloc_ok i = true) (hwf : ∀ c ∈ calls, c.wf)
    (hfit : (written calls).length < env.SIZE_MOD) :
    WInv (write_session env f filename mode calls) (written calls) ∧
      (write_session env f filename mode calls).txbuf.length = 0 ∧
      committed (write_session env f filename mode calls) = written calls ∧
      (write_session env f filename mode calls).len = (written calls).length := by
  have h1 := (fs_open_w_ok f filename mode hh hw).2
  have h2 := fs_writes_winv env calls _ _ h1 hok hwf (by simpa using hfit)
  simp only [List.nil_append] at h2
  exact fs_close_winv env _ _ h2 hok hfit
/-! ## Invariants of reachable states -/

theorem ram_write_inv (env : Env) (f : ram_file_t) (s : List Byte) (n : Nat) :
    Inv env (ram_write env f s n).2 := by
  unfold ram_write realloc
  by_cases hok : env.realloc_ok f.heap_calls = true
  · simp only [hok, if_true]
    refine ⟨?_, ?_, Nat.mod_lt _ (SIZE_MOD_pos env)⟩
    · intro d hd
      simp only [Option.some.injEq] at hd
      rw [← hd, memcpy, store_length, fetch_length]
    · intro _ hd; simp at hd
  · simp only [hok]
    exact ⟨by simp, by simp, SIZE_MOD_pos env⟩

theorem fs_open_inv (env : Env) (f : ram_file_t) (filename mode : String)
    (h : Inv env f) : Inv env (fs_open f filename mode).2 := by
  obtain ⟨h1, h2, h3⟩ := h
  unfold fs_open
  by_cases hw : mode_has_w mode = true
  · by_cases hh : f.file.handle = 0
    · simp only [hw, hh, ne_eq, not_true_eq_false, if_false, if_true]
      exact ⟨by simp, by simp, SIZE_MOD_pos env⟩
    · simp only [hw, hh, ne_eq, not_false_eq_true, if_true]
      exact ⟨h1, h2, h3⟩
  · simp only [hw]
    exact ⟨h1, h2, h3⟩

theorem fs_close_inv (env : Env) (f : ram_file_t) (h : Inv env f) :
    Inv env (fs_close env f) := by
  unfold fs_close
  split_ifs
  · exact ram_write_inv env f _ _
  · exact h
  · exact ⟨by simp, by simp, h.rep⟩

theorem fs_read_inv (env : Env) (f : ram_file_t) (size count : Nat) (h : Inv env f) :
    Inv env (fs_read env f size count).2.2 := by
  obtain ⟨h1, h2, h3⟩ := h
  unfold fs_read
  cases f.pos <;> exact ⟨h1, h2, h3⟩

theorem inv_congr {env : Env} {f g : ram_file_t} (h : Inv env f)
    (hd : g.data = f.data) (hl : g.len = f.len) (hh : g.file.handle = f.file.handle) :
    Inv env g := by
  obtain ⟨h1, h2, h3⟩ := h
  refine ⟨?_, ?_, ?_⟩
  · rw [hd, hl]; exact h1
  · rw [hd, hl, hh]; exact h2
  · rw [hl]; exact h3

theorem fs_write_inv (env : Env) (f : ram_file_t) (buffer : List Byte) (size count : Nat)
    (h : Inv env f) : Inv env (fs_write env f buffer size count).2 := by
  unfold fs_write
  simp only
  by_cases c1 : (size * count) % env.SIZE_MOD = 0 ∨ f.file.handle = 0
  · rw [if_pos c1]; exact h
  · rw [if_neg c1]
    generalize hfl : (if f.txbuf.length ≠ 0 ∧
        (f.txbuf.length + (size * count) % env.SIZE_MOD) % env.SIZE_MOD > f.txbuf.max_length
      then ram_write env f f.txbuf.data f.txbuf.length else (true, f)) = flushed
    have hi : Inv env flushed.2 := by
      rw [← hfl]
      split_ifs
      · exact ram_write_inv env f _ _
      · exact h
    by_cases c2 : flushed.1 = false
    · rw [if_pos c2]; exact hi
    · rw [if_neg c2]
      by_cases c3 : flushed.2.txbuf.length = 0 ∧
          (size * count) % env.SIZE_MOD > flushed.2.txbuf.max_length
      · rw [if_pos c3]; exact ram_write_inv env _ _ _
      · rw [if_neg c3]; exact inv_congr hi rfl rfl rfl

theorem step_inv (env : Env) (f : ram_file_t) (op : Op) (h : Inv env f) :
    Inv env (step env f op) := by
  cases op with
  | fopen filename mode => exact fs_open_inv env f filename mode h
  | fclose => exact fs_close_inv env f h
  | fread size count => exact fs_read_inv env f size count h
  | fwrite buffer size count => exact fs_write_inv env f buffer size count h
  | funlink filename => exact ⟨by simp [step, fs_unlink], by simp [step, fs_unlink], h.rep⟩
  | reset => exact ⟨by simp [step, fs_reset], by simp [step, fs_reset], h.rep⟩

theorem run_inv (env : Env) (ops : List Op) :
    ∀ f : ram_file_t, Inv env f → Inv env (run env f ops) := by
  induction ops with
  | nil => intro f h; exact h
  | cons op ops ih => intro f h; exact ih _ (step_inv env f op h)

theorem v_file_init_inv (env : Env) (cap : Nat) : Inv env (v_file_init cap) :=
  ⟨by simp [v_file_init], by simp [v_file_init], SIZE_MOD_pos env⟩

theorem reachable_inv {env : Env} {cap : Nat} {f : ram_file_t} (h : Reachable env cap f) :
    Inv env f := by
  obtain ⟨ops, rfl⟩ := h
  exact run_inv env ops _ (v_file_init_inv env cap)
/-! ## Read sessions -/

theorem rinv_tell {env : Env} {f : ram_file_t} (h : RInv env f) :
    fs_tell env f = f.len - f.remaining := by
  have h1 := h.rem
  have h2 := h.rep
  unfold fs_tell
  rw [show f.len + env.SIZE_MOD - f.remaining = (f.len - f.remaining) + env.SIZE_MOD by omega,
    Nat.add_mod_right, Nat.mod_eq_of_lt (by omega)]

/-- The effect of `fs_read` inside a read session. -/
theorem fs_read_rinv (env : Env) (f : ram_file_t) (size count : Nat) (h : RInv env f) :
    (fs_read env f size count).1 = min ((size * count) % env.SIZE_MOD) f.remaining ∧
    (fs_read env f size count).2.1 =
      ((committed f).drop (f.len - f.remaining)).take
        (min ((size * count) % env.SIZE_MOD) f.remaining) ∧
    (fs_read env f size count).2.2.remaining =
      f.remaining - min ((size * count) % env.SIZE_MOD) f.remaining ∧
    (fs_read env f size count).2.2.len = f.len ∧
    (fs_read env f size count).2.2.data = f.data ∧
    RInv env (fs_read env f size count).2.2 := by
  obtain ⟨hp, hl, hr, hrep⟩ := h
  have hk : (if (size * count) % env.SIZE_MOD > f.remaining then f.remaining
      else (size * count) % env.SIZE_MOD) = min ((size * count) % env.SIZE_MOD) f.remaining := by
    split_ifs <;> omega
  unfold fs_read
  cases hd : f.data with
  | none =>
    have hl0 : f.len = 0 := by rw [← hl]; simp [committed, hd]
    have hr0 : f.remaining = 0 := by omega
    rw [hd] at hp
    simp only [Option.map_none'] at hp
    rw [hp]
    simp only [hr0, Nat.min_zero, List.take_zero, Nat.sub_zero, true_and]
    exact ⟨by simp, by simpa [committed] using hl0.symm, by simp, hrep⟩
  | some d =>
    have hdl : d.length = f.len := by rw [← hl]; simp [committed, hd]
    rw [hd] at hp
    simp only [Option.map_some'] at hp
    rw [hp]
    simp only [hk, committed, Option.getD_some, true_and]
    refine ⟨?_, ?_⟩
    · rw [hd, Option.getD_some, fetch_of_le]
      rw [List.length_drop]
      omega
    · refine ⟨?_, by simpa [committed] using hdl, by simp only; omega, hrep⟩
      simp only [Option.map_some', Option.some.injEq]
      omega

theorem rinv_eof_iff {env : Env} {f : ram_file_t} (h : RInv env f) :
    fs_eof f = true ↔ fs_tell env f = f.len := by
  have h1 := h.rem
  rw [rinv_tell h]
  simp only [fs_eof, decide_eq_true_eq]
  omega

/-- A read-mode `fs_open` that finds a handle starts a read session at offset 0. -/
theorem fs_open_r_rinv (env : Env) (f : ram_file_t) (filename mode : String)
    (h : Inv env f) (hh : f.file.handle ≠ 0) (hr : mode_has_w mode = false) :
    (fs_open f filename mode).1 ≠ none ∧ RInv env (fs_open f filename mode).2 ∧
    (fs_open f filename mode).2.remaining = f.len ∧
    (fs_open f filename mode).2.len = f.len ∧
    (fs_open f filename mode).2.data = f.data := by
  obtain ⟨h1, h2, h3⟩ := h
  simp only [fs_open, hr, Bool.false_eq_true, if_false, hh]
  refine ⟨by simp, ?_, trivial, trivial, trivial⟩
  refine ⟨by simp, ?_, le_refl _, h3⟩
  cases hd : f.data with
  | none => simpa [committed, hd] using (h2 hh hd).symm
  | some d => simpa [committed, hd] using h1 d hd

theorem fs_reads_rinv (env : Env) (reqs : List (Nat × Nat)) :
    ∀ f : ram_file_t, RInv env f → RInv env (fs_reads env f reqs).2.2 := by
  induction reqs with
  | nil => intro f h; exact h
  | cons r rs ih =>
    intro f h
    exact ih _ (fs_read_rinv env f r.1 r.2 h).2.2.2.2.2

theorem read_session_rinv {env : Env} {cap : Nat} {f : ram_file_t}
    (h : ReadSession env cap f) : RInv env f := by
  obtain ⟨g, filename, mode, reqs, hg, hm, ho, rfl⟩ := h
  have hh : g.file.handle ≠ 0 := by
    intro h0
    simp [fs_open, hm, h0] at ho
  exact fs_reads_rinv env reqs _ (fs_open_r_rinv env g filename mode (reachable_inv hg) hh hm).2.1

/-- Reading until a read returns 0 delivers the rest of the file. -/
theorem read_until_zero_rinv (env : Env) (req : Nat → Nat × Nat)
    (hreq : ∀ i, 0 < ((req i).1 * (req i).2) % env.SIZE_MOD) :
    ∀ (fuel i : Nat) (f : ram_file_t), RInv env f → f.remaining < fuel →
      ∃ g, read_until_zero env req fuel i f =
          some ((committed f).drop (f.len - f.remaining), g) ∧
        g.remaining = 0 ∧ g.len = f.len ∧ g.data = f.data ∧ RInv env g := by
  intro fuel
  induction fuel with
  | zero => intro i f _ hlt; omega
  | succ fuel ih =>
    intro i f h hlt
    obtain ⟨e1, e2, e3, e4, e5, e6⟩ := fs_read_rinv env f (req i).1 (req i).2 h
    have hn := hreq i
    have hr := h.rem
    unfold read_until_zero
    simp only
    by_cases hz : (fs_read env f (req i).1 (req i).2).1 = 0
    · rw [if_pos hz]
      have hr0 : f.remaining = 0 := by rw [e1] at hz; omega
      refine ⟨_, ?_, by rw [e3, hr0]; omega, e4, e5, e6⟩
      rw [hr0, Nat.sub_zero, ← h.len, List.drop_length]
    · rw [if_neg hz]
      obtain ⟨g, hg, g1, g2, g3, g4⟩ := ih (i + 1) _ e6 (by rw [e3]; omega)
      rw [hg]
      refine ⟨g, ?_, g1, g2.trans e4, g3.trans e5, g4⟩
      simp only [Option.map_some', Option.some.injEq, Prod.mk.injEq, and_true]
      rw [e2, e3, e4]
      have hc : committed (fs_read env f (req i).1 (req i).2).2.2 = committed f := by
        simp [committed, e5]
      rw [hc]
      set k := min ((req i).1 * (req i).2 % env.SIZE_MOD) f.remaining with hk
      have : f.len - (f.remaining - k) = (f.len - f.remaining) + k := by omega
      rw [this, ← List.drop_drop, List.take_append_drop]
/-! ## The claims -/

theorem written_length (calls : List WriteCall) (hwf : ∀ c ∈ calls, c.wf) :
    (written calls).length = (calls.map (fun c => c.size * c.count)).sum := by
  induction calls with
  | nil => rfl
  | cons c cs ih =>
    have hc : c.buffer.length = c.size * c.count := hwf c (List.mem_cons_self _ _)
    simp only [written, List.length_append, List.map_cons, List.sum_cons, hc]
    rw [ih (fun x hx => hwf x (List.mem_cons_of_mem _ hx))]

theorem winv_inv {env : Env} {f : ram_file_t} {S : List Byte} (h : WInv f S)
    (hfit : S.length < env.SIZE_MOD) : Inv env f := by
  have hS := winv_length_eq h
  have hl := h.len
  refine ⟨?_, ?_, by omega⟩
  · intro d hd
    simpa [committed, hd] using hl
  · intro _ hd
    simpa [committed, hd] using hl.symm

/-- More fuel does not change the outcome of a finished read loop. -/
theorem read_until_zero_mono (env : Env) (req : Nat → Nat × Nat) :
    ∀ (fuel i : Nat) (f : ram_file_t) (r : List Byte × ram_file_t),
      read_until_zero env req fuel i f = some r →
      ∀ fuel', fuel ≤ fuel' → read_until_zero env req fuel' i f = some r := by
  intro fuel
  induction fuel with
  | zero => intro i f r h; simp [read_until_zero] at h
  | succ fuel ih =>
    intro i f r h fuel' hle
    obtain ⟨m, rfl⟩ : ∃ m, fuel' = m + 1 := ⟨fuel' - 1, by omega⟩
    unfold read_until_zero at h ⊢
    simp only at h ⊢
    by_cases hz : (fs_read env f (req i).1 (req i).2).1 = 0
    · rw [if_pos hz] at h ⊢; exact h
    · rw [if_neg hz] at h ⊢
      cases hrec : read_until_zero env req fuel (i + 1) (fs_read env f (req i).1 (req i).2).2.2 with
      | none => rw [hrec] at h; simp at h
      | some r' =>
        rw [hrec] at h
        rw [ih _ _ _ hrec m (by omega)]
        exact h

/-- C1 (round trip).  From any state with no handle out, with every allocation
succeeding: a write-mode `fs_open`, writes that hand over the bytes `S` in any
split, `fs_close`, a read-mode `fs_open`, then `fs_read` calls with positive
request sizes until one returns 0.  Both opens succeed, the loop ends (any
fuel above `len(S)` is enough), the bytes read are exactly `S`, and at the end
`fs_tell` is `len(S)` and `fs_eof` is true. -/
theorem round_trip (env : Env) (f : ram_file_t) (fw mw fr mr : String)
    (calls : List WriteCall) (req : Nat → Nat × Nat)
    (hh : f.file.handle = 0)
    (hw : mode_has_w mw = true) (hr : mode_has_w mr = false)
    (hok : ∀ i, env.realloc_ok i = true)
    (hwf : ∀ c ∈ calls, c.wf)
    (hfit : (written calls).length < env.SIZE_MOD)
    (hreq : ∀ i, 0 < ((req i).1 * (req i).2) % env.SIZE_MOD) :
    (fs_open f fw mw).1 ≠ none ∧
    (fs_open (write_session env f fw mw calls) fr mr).1 ≠ none ∧
    ∃ g, (∀ fuel, (written calls).length < fuel →
        read_until_zero env req fuel 0 (fs_open (write_session env f fw mw calls) fr mr).2 =
          some (written calls, g)) ∧
      fs_tell env g = (written calls).length ∧ fs_eof g = true := by
  obtain ⟨hi, -, hc, hl⟩ := write_session_ok env f fw mw calls hh hw hok hwf hfit
  obtain ⟨o1, o2, o3, o4, o5⟩ :=
    fs_open_r_rinv env _ fr mr (winv_inv hi hfit) hi.handle hr
  refine ⟨(fs_open_w_ok f fw mw hh hw).1, o1, ?_⟩
  obtain ⟨g, hg, g1, g2, -, g4⟩ :=
    read_until_zero_rinv env req hreq ((written calls).length + 1) 0 _ o2
      (by rw [o3, hl]; omega)
  have hall : List.drop
      ((fs_open (write_session env f fw mw calls) fr mr).2.len -
        (fs_open (write_session env f fw mw calls) fr mr).2.remaining)
      (committed (fs_open (write_session env f fw mw calls) fr mr).2) = written calls := by
    rw [o3, o4, Nat.sub_self, List.drop_zero]
    simp only [committed, o5]
    exact hc
  rw [hall] at hg
  refine ⟨g, ?_, ?_, ?_⟩
  · intro fuel hfuel
    exact read_until_zero_mono env req _ 0 _ _ hg fuel (by omega)
  · rw [rinv_tell g4, g1, g2, o4, hl]; rfl
  · simp [fs_eof, g1]
/-- Witness of C1: `"hello "` then `"world"` written into a staging array of 8
bytes, read back with 20-byte reads; the first read already returns all 11
bytes. -/
theorem round_trip_witness :
    ((v_file_init 8).file.handle = 0 ∧ mode_has_w "w" = true ∧ mode_has_w "r" = false ∧
      written hello_world_calls = hello ++ world ∧
      (fs_read env32 (fs_open hello_world_file "/ram/f" "r").2 1 20).1 = 11 ∧
      (fs_read env32 (fs_open hello_world_file "/ram/f" "r").2 1 20).2.1 = hello ++ world) ∧
    ((fs_open (v_file_init 8) "/ram/f" "w").1 ≠ none ∧
      (fs_open (write_session env32 (v_file_init 8) "/ram/f" "w" hello_world_calls)
        "/ram/f" "r").1 ≠ none ∧
      ∃ g, (∀ fuel, (written hello_world_calls).length < fuel →
          read_until_zero env32 (fun _ => (1, 20)) fuel 0
            (fs_open (write_session env32 (v_file_init 8) "/ram/f" "w" hello_world_calls)
              "/ram/f" "r").2 = some (written hello_world_calls, g)) ∧
        fs_tell env32 g = (written hello_world_calls).length ∧ fs_eof g = true) :=
  ⟨by decide,
   round_trip env32 (v_file_init 8) "/ram/f" "w" "/ram/f" "r" hello_world_calls
    (fun _ => (1, 20)) (by decide) (by decide) (by decide) (fun _ => rfl)
    (by decide) (by decide) (fun _ => show 0 < (1 * 20) % env32.SIZE_MOD by decide)⟩

/-- C2 (staging coalescing transparency).  Two write sessions from the same
state with no handle out, whose writes hand over the same bytes `S` in two
different splits, end with the same committed content and length: the content
is `S` (in a block whenever `S` is not empty) and `len` is `len(S)`. -/
theorem coalescing_transparent (env : Env) (f : ram_file_t) (fw mw : String)
    (S : List Byte) (calls1 calls2 : List WriteCall)
    (hh : f.file.handle = 0) (hw : mode_has_w mw = true)
    (hok : ∀ i, env.realloc_ok i = true)
    (hwf1 : ∀ c ∈ calls1, c.wf) (hwf2 : ∀ c ∈ calls2, c.wf)
    (h1 : written calls1 = S) (h2 : written calls2 = S)
    (hfit : S.length < env.SIZE_MOD) :
    committed (write_session env f fw mw calls1) = S ∧
    (write_session env f fw mw calls1).len = S.length ∧
    committed (write_session env f fw mw calls2) = S ∧
    (write_session env f fw mw calls2).len = S.length ∧
    (S ≠ [] → (write_session env f fw mw calls1).data = some S ∧
      (write_session env f fw mw calls2).data = some S) := by
  obtain ⟨-, -, c1, l1⟩ := write_session_ok env f fw mw calls1 hh hw hok hwf1 (by rw [h1]; exact hfit)
  obtain ⟨-, -, c2, l2⟩ := write_session_ok env f fw mw calls2 hh hw hok hwf2 (by rw [h2]; exact hfit)
  rw [h1] at c1 l1
  rw [h2] at c2 l2
  refine ⟨c1, l1, c2, l2, fun hne => ⟨?_, ?_⟩⟩
  · unfold committed at c1
    cases hd : (write_session env f fw mw calls1).data with
    | none => rw [hd] at c1; exact absurd c1.symm hne
    | some d => rw [hd] at c1; simpa using c1
  · unfold committed at c2
    cases hd : (write_session env f fw mw calls2).data with
    | none => rw [hd] at c2; exact absurd c2.symm hne
    | some d => rw [hd] at c2; simpa using c2

/-- Witness of C2: `"hello world"` written as 6 + 5 bytes and as one call of 11
bytes (which bypasses the 8-byte staging array). -/
theorem coalescing_transparent_witness :
    ((v_file_init 8).file.handle = 0 ∧ mode_has_w "w" = true ∧
      written hello_world_calls = hello ++ world ∧
      written [⟨hello ++ world, 11, 1⟩] = hello ++ world) ∧
    (committed (write_session env32 (v_file_init 8) "/ram/f" "w" hello_world_calls) =
        hello ++ world ∧
      (write_session env32 (v_file_init 8) "/ram/f" "w" hello_world_calls).len =
        (hello ++ world).length ∧
      committed (write_session env32 (v_file_init 8) "/ram/f" "w"
        [⟨hello ++ world, 11, 1⟩]) = hello ++ world ∧
      (write_session env32 (v_file_init 8) "/ram/f" "w" [⟨hello ++ world, 11, 1⟩]).len =
        (hello ++ world).length ∧
      (hello ++ world ≠ [] →
        (write_session env32 (v_file_init 8) "/ram/f" "w" hello_world_calls).data =
          some (hello ++ world) ∧
        (write_session env32 (v_file_init 8) "/ram/f" "w" [⟨hello ++ world, 11, 1⟩]).data =
          some (hello ++ world))) :=
  ⟨by decide,
   coalescing_transparent env32 (v_file_init 8) "/ram/f" "w" (hello ++ world)
    hello_world_calls [⟨hello ++ world, 11, 1⟩] (by decide) (by decide) (fun _ => rfl)
    (by decide) (by decide) (by decide) (by decide) (by decide)⟩

/-- C3 (size after a write session).  After a write session from a state with
no handle out whose writes have lengths summing to `N`, every allocation
succeeding, `fs_stat` returns 0 and reports `st_size = N`, and the handle flag
is still set. -/
theorem stat_after_write_session (env : Env) (f : ram_file_t) (fw mw path : String)
    (calls : List WriteCall) (N : Nat) (st : vfs_stat_t)
    (hh : f.file.handle = 0) (hw : mode_has_w mw = true)
    (hok : ∀ i, env.realloc_ok i = true)
    (hwf : ∀ c ∈ calls, c.wf)
    (hN : (calls.map (fun c => c.size * c.count)).sum = N)
    (hfit : N < env.SIZE_MOD) :
    (fs_stat (write_session env f fw mw calls) path st).1 = 0 ∧
    (fs_stat (write_session env f fw mw calls) path st).2.st_size = N ∧
    (write_session env f fw mw calls).file.handle ≠ 0 := by
  have hlen := written_length calls hwf
  rw [hN] at hlen
  obtain ⟨hi, -, -, hl⟩ := write_session_ok env f fw mw calls hh hw hok hwf (by omega)
  have hne := hi.handle
  simp only [fs_stat, hne, ne_eq, not_false_eq_true, if_true, true_and, and_true]
  omega

/-- Witness of C3: writes of 6 and 5 bytes give `st_size = 11`. -/
theorem stat_after_write_session_witness :
    ((v_file_init 8).file.handle = 0 ∧ mode_has_w "w" = true ∧
      (hello_world_calls.map (fun c => c.size * c.count)).sum = 11) ∧
    ((fs_stat (write_session env32 (v_file_init 8) "/ram/f" "w" hello_world_calls)
        "/ram/f" ⟨0⟩).1 = 0 ∧
      (fs_stat (write_session env32 (v_file_init 8) "/ram/f" "w" hello_world_calls)
        "/ram/f" ⟨0⟩).2.st_size = 11 ∧
      (write_session env32 (v_file_init 8) "/ram/f" "w" hello_world_calls).file.handle ≠ 0) :=
  ⟨by decide,
   stat_after_write_session env32 (v_file_init 8) "/ram/f" "w" "/ram/f" hello_world_calls 11 ⟨0⟩
    (by decide) (by decide) (fun _ => rfl) (by decide) (by decide) (by decide)⟩
/-- C4 (read semantics).  Inside a read session, for a request of
`n = size * count` bytes (the `size_t` product), `fs_read` returns
`k = min(n, remaining)`; the bytes copied out are the `k` bytes
`data[tell .. tell + k)` where `tell` is `fs_tell` before the call; afterwards
`fs_tell` has grown by `k` and `remaining` has shrunk by `k`; and, before and
after the call, `fs_eof` is true exactly when `fs_tell` equals the length. -/
theorem read_semantics (env : Env) (cap : Nat) (f : ram_file_t) (size count : Nat)
    (h : ReadSession env cap f) :
    (fs_read env f size count).1 = min ((size * count) % env.SIZE_MOD) f.remaining ∧
    (size * count < env.SIZE_MOD →
      (fs_read env f size count).1 = min (size * count) f.remaining) ∧
    (fs_read env f size count).2.1 =
      ((committed f).drop (fs_tell env f)).take (fs_read env f size count).1 ∧
    (fs_read env f size count).2.1.length = (fs_read env f size count).1 ∧
    fs_tell env f + (fs_read env f size count).1 ≤ (committed f).length ∧
    fs_tell env (fs_read env f size count).2.2 =
      fs_tell env f + (fs_read env f size count).1 ∧
    (fs_read env f size count).2.2.remaining + (fs_read env f size count).1 = f.remaining ∧
    (fs_eof f = true ↔ fs_tell env f = f.len) ∧
    (fs_eof (fs_read env f size count).2.2 = true ↔
      fs_tell env (fs_read env f size count).2.2 = (fs_read env f size count).2.2.len) := by
  have hr := read_session_rinv h
  obtain ⟨e1, e2, e3, e4, -, e6⟩ := fs_read_rinv env f size count hr
  have hrem := hr.rem
  have hlen := hr.len
  have hk : min ((size * count) % env.SIZE_MOD) f.remaining ≤ f.remaining := Nat.min_le_right _ _
  refine ⟨e1, ?_, ?_, ?_, ?_, ?_, ?_, rinv_eof_iff hr, rinv_eof_iff e6⟩
  · intro hlt
    rw [e1, Nat.mod_eq_of_lt hlt]
  · rw [e2, e1, rinv_tell hr]
  · rw [e2, e1, List.length_take, List.length_drop, hlen]
    omega
  · rw [e1, rinv_tell hr, hlen]
    omega
  · rw [rinv_tell e6, rinv_tell hr, e3, e4, e1]
    omega
  · rw [e3, e1]
    omega

/-- Witness of C4: a 4-byte read at the start of the `"hello world"` file. -/
theorem read_semantics_witness :
    ReadSession env32 8 hello_world_reading ∧
    (fs_read env32 hello_world_reading 1 4).1 = 4 ∧
    (fs_read env32 hello_world_reading 1 4).2.1 = [104, 101, 108, 108] ∧
    ((fs_read env32 hello_world_reading 1 4).1 =
        min ((1 * 4) % env32.SIZE_MOD) hello_world_reading.remaining ∧
      (1 * 4 < env32.SIZE_MOD →
        (fs_read env32 hello_world_reading 1 4).1 = min (1 * 4) hello_world_reading.remaining) ∧
      (fs_read env32 hello_world_reading 1 4).2.1 =
        ((committed hello_world_reading).drop (fs_tell env32 hello_world_reading)).take
          (fs_read env32 hello_world_reading 1 4).1 ∧
      (fs_read env32 hello_world_reading 1 4).2.1.length =
        (fs_read env32 hello_world_reading 1 4).1 ∧
      fs_tell env32 hello_world_reading + (fs_read env32 hello_world_reading 1 4).1 ≤
        (committed hello_world_reading).length ∧
      fs_tell env32 (fs_read env32 hello_world_reading 1 4).2.2 =
        fs_tell env32 hello_world_reading + (fs_read env32 hello_world_reading 1 4).1 ∧
      (fs_read env32 hello_world_reading 1 4).2.2.remaining +
        (fs_read env32 hello_world_reading 1 4).1 = hello_world_reading.remaining ∧
      (fs_eof hello_world_reading = true ↔
        fs_tell env32 hello_world_reading = hello_world_reading.len) ∧
      (fs_eof (fs_read env32 hello_world_reading 1 4).2.2 = true ↔
        fs_tell env32 (fs_read env32 hello_world_reading 1 4).2.2 =
          (fs_read env32 hello_world_reading 1 4).2.2.len)) :=
  have hs : ReadSession env32 8 hello_world_reading :=
    ⟨hello_world_file, "/ram/f", "r", [],
      ⟨[.fopen "/ram/f" "w", .fwrite hello 1 6, .fwrite world 1 5, .fclose], rfl⟩,
      by decide, by decide, rfl⟩
  ⟨hs, by decide, by decide, read_semantics env32 8 hello_world_reading 1 4 hs⟩

/-- C5 (idempotent EOF).  With `remaining == 0`, `fs_read` returns 0, copies
no byte and leaves every field of the state as it was, for every request. -/
theorem read_at_eof (env : Env) (f : ram_file_t) (size count : Nat)
    (h : f.remaining = 0) :
    fs_read env f size count = (0, [], f) := by
  obtain ⟨data, pos, write, len, remaining, file, txbuf, heap_calls⟩ := f
  simp only at h
  subst h
  cases pos with
  | none => rfl
  | some p =>
    have hk : (if (size * count) % env.SIZE_MOD > 0 then 0
        else (size * count) % env.SIZE_MOD) = 0 := by
      split_ifs <;> omega
    simp only [fs_read, hk, fetch_zero, Nat.add_zero, Nat.sub_zero]

/-- Witness of C5: the `"hello world"` file after a 20-byte read has consumed it. -/
theorem read_at_eof_witness :
    (fs_read env32 hello_world_reading 1 20).2.2.remaining = 0 ∧
    fs_read env32 (fs_read env32 hello_world_reading 1 20).2.2 1 20 =
      (0, [], (fs_read env32 hello_world_reading 1 20).2.2) :=
  ⟨by decide, read_at_eof env32 _ 1 20 (by decide)⟩

/-- C6 (single-handle exclusivity).  With a handle out, a write-mode `fs_open`
returns `NULL` and leaves the committed block, the length and the staging
buffer (hence the staged bytes) as they were; the handle flag stays set. -/
theorem open_w_rejected (f : ram_file_t) (filename mode : String)
    (hh : f.file.handle ≠ 0) (hw : mode_has_w mode = true) :
    (fs_open f filename mode).1 = none ∧
    (fs_open f filename mode).2.data = f.data ∧
    (fs_open f filename mode).2.len = f.len ∧
    (fs_open f filename mode).2.txbuf = f.txbuf ∧
    staged (fs_open f filename mode).2 = staged f ∧
    (fs_open f filename mode).2.file = f.file := by
  simp [fs_open, hw, hh, staged]

/-- Witness of C6: a second write-mode open while `"hello "` is staged. -/
theorem open_w_rejected_witness :
    (hello_writing.file.handle ≠ 0 ∧ mode_has_w "wb" = true ∧ staged hello_writing = hello) ∧
    ((fs_open hello_writing "/ram/g" "wb").1 = none ∧
      (fs_open hello_writing "/ram/g" "wb").2.data = hello_writing.data ∧
      (fs_open hello_writing "/ram/g" "wb").2.len = hello_writing.len ∧
      (fs_open hello_writing "/ram/g" "wb").2.txbuf = hello_writing.txbuf ∧
      staged (fs_open hello_writing "/ram/g" "wb").2 = staged hello_writing ∧
      (fs_open hello_writing "/ram/g" "wb").2.file = hello_writing.file) :=
  ⟨by decide, open_w_rejected hello_writing "/ram/g" "wb" (by decide) (by decide)⟩
/-- What `fs_read` leaves alone. -/
theorem fs_read_frame (env : Env) (f : ram_file_t) (size count : Nat) :
    (fs_read env f size count).2.2.write = f.write ∧
    (fs_read env f size count).2.2.len = f.len ∧
    (fs_read env f size count).2.2.file = f.file ∧
    (fs_read env f size count).2.2.data = f.data := by
  unfold fs_read
  cases f.pos <;> exact ⟨rfl, rfl, rfl, rfl⟩

theorem fs_reads_frame (env : Env) (reqs : List (Nat × Nat)) :
    ∀ f : ram_file_t,
      (fs_reads env f reqs).2.2.write = f.write ∧
      (fs_reads env f reqs).2.2.len = f.len ∧
      (fs_reads env f reqs).2.2.file = f.file := by
  induction reqs with
  | nil => intro f; exact ⟨rfl, rfl, rfl⟩
  | cons r rs ih =>
    intro f
    obtain ⟨a, b, c, -⟩ := fs_read_frame env f r.1 r.2
    obtain ⟨a', b', c'⟩ := ih (fs_read env f r.1 r.2).2.2
    exact ⟨a'.trans a, b'.trans b, c'.trans c⟩

/-- With a `NULL` read pointer every read returns 0 and copies nothing. -/
theorem fs_reads_null (env : Env) (reqs : List (Nat × Nat)) :
    ∀ f : ram_file_t, f.pos = none →
      (fs_reads env f reqs).1 = List.replicate reqs.length 0 ∧
      (fs_reads env f reqs).2.1 = [] := by
  induction reqs with
  | nil => intro f _; exact ⟨rfl, rfl⟩
  | cons r rs ih =>
    intro f hp
    have hx : fs_read env f r.1 r.2 = (0, [], { f with remaining := 0 }) := by
      simp [fs_read, hp]
    obtain ⟨a, b⟩ := ih { f with remaining := 0 } hp
    simp only [fs_reads, hx, a, b, List.length_cons, List.replicate_succ, List.append_nil,
      and_self]

/-- The state after a full cycle: the block is freed and the handle cleared,
the recorded length is still that of the deleted content. -/
theorem read_cycle_state (env : Env) (f : ram_file_t) (fw mw fr mr : String)
    (calls : List WriteCall) (reqs : List (Nat × Nat))
    (hh : f.file.handle = 0)
    (hw : mode_has_w mw = true) (hr : mode_has_w mr = false)
    (hok : ∀ i, env.realloc_ok i = true)
    (hwf : ∀ c ∈ calls, c.wf)
    (hfit : (written calls).length < env.SIZE_MOD) :
    (read_cycle env f fw mw calls fr mr reqs).data = none ∧
    (read_cycle env f fw mw calls fr mr reqs).file.handle = 0 ∧
    (read_cycle env f fw mw calls fr mr reqs).len = (written calls).length := by
  obtain ⟨-, -, -, hl⟩ := write_session_ok env f fw mw calls hh hw hok hwf hfit
  obtain ⟨a, b, -⟩ := fs_reads_frame env reqs (fs_open (write_session env f fw mw calls) fr mr).2
  have ow : (fs_open (write_session env f fw mw calls) fr mr).2.write = false := by
    simp [fs_open, hr]
  have ol : (fs_open (write_session env f fw mw calls) fr mr).2.len =
      (write_session env f fw mw calls).len := by
    simp [fs_open, hr]
  unfold read_cycle fs_close
  rw [a, ow]
  simp only [Bool.false_eq_true, if_false, true_and]
  rw [b, ol, hl]

/-- C7, as amended (delete on read-close).  After a full cycle (write session
of a non-empty `S`, read-mode open, reads, close) `fs_stat` reports not-found
(-1) and leaves `*st` alone.  A following read-mode `fs_open` returns `NULL`;
after it `fs_tell` is 0 and every `fs_read` returns 0 bytes, but `remaining`
is the length of the deleted content, so `fs_eof` is false until the first
`fs_read`, which sets `remaining` to 0. -/
theorem delete_on_read_close (env : Env) (f : ram_file_t) (fw mw fr mr fr2 mr2 path : String)
    (calls : List WriteCall) (reqs : List (Nat × Nat)) (st : vfs_stat_t)
    (hh : f.file.handle = 0)
    (hw : mode_has_w mw = true) (hr : mode_has_w mr = false) (hr2 : mode_has_w mr2 = false)
    (hok : ∀ i, env.realloc_ok i = true)
    (hwf : ∀ c ∈ calls, c.wf)
    (hne : written calls ≠ [])
    (hfit : (written calls).length < env.SIZE_MOD) :
    fs_stat (read_cycle env f fw mw calls fr mr reqs) path st = (-1, st) ∧
    (fs_open (read_cycle env f fw mw calls fr mr reqs) fr2 mr2).1 = none ∧
    (fs_open (read_cycle env f fw mw calls fr mr reqs) fr2 mr2).2.remaining =
      (written calls).length ∧
    fs_eof (fs_open (read_cycle env f fw mw calls fr mr reqs) fr2 mr2).2 = false ∧
    fs_tell env (fs_open (read_cycle env f fw mw calls fr mr reqs) fr2 mr2).2 = 0 ∧
    (∀ reqs2 : List (Nat × Nat),
      (fs_reads env (fs_open (read_cycle env f fw mw calls fr mr reqs) fr2 mr2).2 reqs2).1 =
        List.replicate reqs2.length 0 ∧
      (fs_reads env (fs_open (read_cycle env f fw mw calls fr mr reqs) fr2 mr2).2 reqs2).2.1 =
        []) ∧
    (∀ size count : Nat,
      fs_eof (fs_read env (fs_open (read_cycle env f fw mw calls fr mr reqs) fr2 mr2).2
        size count).2.2 = true) := by
  obtain ⟨hd, h0, hl⟩ := read_cycle_state env f fw mw fr mr calls reqs hh hw hr hok hwf hfit
  have hpos : 0 < (written calls).length := List.length_pos.mpr hne
  generalize read_cycle env f fw mw calls fr mr reqs = g at hd h0 hl
  have e : (fs_open g fr2 mr2) =
      (none, { g with write := false, file := { g.file with size := g.len },
                      pos := none, remaining := g.len }) := by
    simp [fs_open, hr2, h0, hd]
  rw [e]
  refine ⟨by simp [fs_stat, h0], rfl, hl, ?_, ?_, ?_, ?_⟩
  · simp only [fs_eof, hl, decide_eq_false_iff_not]
    omega
  · simp only [fs_tell]
    rw [Nat.add_sub_cancel_left, Nat.mod_self]
  · intro reqs2
    exact fs_reads_null env reqs2 _ rfl
  · intro size count
    simp [fs_read, fs_eof]
/-- Counterexample to C7 as stated: after the `"hello world"` cycle `fs_stat`
does report -1, but the following read-mode `fs_open` leaves `remaining` at 11,
not 0, and `fs_eof` false. -/
theorem delete_on_read_close_counterexample :
    (fs_stat hello_world_cycled "/ram/f" ⟨0⟩).1 = -1 ∧
    (fs_open hello_world_cycled "/ram/f" "r").2.remaining = 11 ∧
    fs_eof (fs_open hello_world_cycled "/ram/f" "r").2 = false ∧
    ¬ ((fs_open hello_world_cycled "/ram/f" "r").2.remaining = 0 ∧
        fs_eof (fs_open hello_world_cycled "/ram/f" "r").2 = true) := by
  decide

/-- Witness of C7 as amended, on the `"hello world"` cycle. -/
theorem delete_on_read_close_witness :
    ((v_file_init 8).file.handle = 0 ∧ mode_has_w "w" = true ∧ mode_has_w "r" = false ∧
      written hello_world_calls ≠ []) ∧
    (fs_stat hello_world_cycled "/ram/f" ⟨0⟩ = (-1, ⟨0⟩) ∧
      (fs_open hello_world_cycled "/ram/f" "r").1 = none ∧
      (fs_open hello_world_cycled "/ram/f" "r").2.remaining =
        (written hello_world_calls).length ∧
      fs_eof (fs_open hello_world_cycled "/ram/f" "r").2 = false ∧
      fs_tell env32 (fs_open hello_world_cycled "/ram/f" "r").2 = 0 ∧
      (∀ reqs2 : List (Nat × Nat),
        (fs_reads env32 (fs_open hello_world_cycled "/ram/f" "r").2 reqs2).1 =
          List.replicate reqs2.length 0 ∧
        (fs_reads env32 (fs_open hello_world_cycled "/ram/f" "r").2 reqs2).2.1 = []) ∧
      (∀ size count : Nat,
        fs_eof (fs_read env32 (fs_open hello_world_cycled "/ram/f" "r").2
          size count).2.2 = true)) :=
  ⟨by decide,
   delete_on_read_close env32 (v_file_init 8) "/ram/f" "w" "/ram/f" "r" "/ram/f" "r" "/ram/f"
    hello_world_calls [(1, 20)] ⟨0⟩ (by decide) (by decide) (by decide) (by decide)
    (fun _ => rfl) (by decide) (by decide) (by decide)⟩

/-- C8, the code at the failing input.  Three bytes are written, one is read,
the read session is closed: the handle flag is clear and the block is freed,
yet `fs_read` with a 10-byte request returns 2, read through the stale `pos`. -/
theorem read_after_early_close :
    Reachable env32 8 stale_read_state ∧
    stale_read_state.file.handle = 0 ∧
    stale_read_state.data = none ∧
    stale_read_state.pos = some 1 ∧
    (fs_read env32 stale_read_state 1 10).1 = 2 :=
  ⟨⟨_, rfl⟩, by decide, by decide, by decide, by decide⟩

theorem ram_write_fst (env : Env) (f : ram_file_t) (s : List Byte) (n : Nat) :
    (ram_write env f s n).1 = env.realloc_ok f.heap_calls := by
  unfold ram_write realloc
  cases env.realloc_ok f.heap_calls <;> rfl

theorem ram_write_calls (env : Env) (f : ram_file_t) (s : List Byte) (n : Nat) :
    (ram_write env f s n).2.heap_calls = f.heap_calls + 1 := by
  unfold ram_write realloc
  cases env.realloc_ok f.heap_calls <;> rfl

/-- The return value of `fs_write`, and the allocations it makes, along the
three paths taken with a handle out and a non-zero length. -/
theorem fs_write_paths (env : Env) (f : ram_file_t) (buffer : List Byte) (size count : Nat)
    (hh : f.file.handle ≠ 0) (hn : (size * count) % env.SIZE_MOD ≠ 0) :
    ((fs_write env f buffer size count).2.heap_calls = f.heap_calls ∧
      (fs_write env f buffer size count).1 = (size * count) % env.SIZE_MOD) ∨
    ((fs_write env f buffer size count).2.heap_calls = f.heap_calls + 1 ∧
      env.realloc_ok f.heap_calls = false ∧ (fs_write env f buffer size count).1 = 0) ∨
    ((fs_write env f buffer size count).2.heap_calls = f.heap_calls + 1 ∧
      env.realloc_ok f.heap_calls = true ∧
      (fs_write env f buffer size count).1 = (size * count) % env.SIZE_MOD) ∨
    ((fs_write env f buffer size count).2.heap_calls = f.heap_calls + 2 ∧
      env.realloc_ok f.heap_calls = true ∧ env.realloc_ok (f.heap_calls + 1) = false ∧
      (fs_write env f buffer size count).1 = 0) ∨
    ((fs_write env f buffer size count).2.heap_calls = f.heap_calls + 2 ∧
      env.realloc_ok f.heap_calls = true ∧ env.realloc_ok (f.heap_calls + 1) = true ∧
      (fs_write env f buffer size count).1 = (size * count) % env.SIZE_MOD) := by
  unfold fs_write
  simp only
  rw [if_neg (by simp [hh, hn])]
  by_cases c1 : f.txbuf.length ≠ 0 ∧
      (f.txbuf.length + (size * count) % env.SIZE_MOD) % env.SIZE_MOD > f.txbuf.max_length
  · rw [if_pos c1]
    have h1 := ram_write_fst env f f.txbuf.data f.txbuf.length
    have h2 := ram_write_calls env f f.txbuf.data f.txbuf.length
    generalize ram_write env f f.txbuf.data f.txbuf.length = r at h1 h2
    cases ha : env.realloc_ok f.heap_calls with
    | false =>
      rw [ha] at h1
      rw [if_pos h1]
      exact Or.inr (Or.inl ⟨h2, rfl, rfl⟩)
    | true =>
      rw [ha] at h1
      rw [if_neg (by simp [h1])]
      by_cases c2 : r.2.txbuf.length = 0 ∧ (size * count) % env.SIZE_MOD > r.2.txbuf.max_length
      · rw [if_pos c2]
        have h3 := ram_write_fst env r.2 buffer ((size * count) % env.SIZE_MOD)
        have h4 := ram_write_calls env r.2 buffer ((size * count) % env.SIZE_MOD)
        generalize ram_write env r.2 buffer ((size * count) % env.SIZE_MOD) = r2 at h3 h4
        rw [h2] at h3 h4
        cases hb : env.realloc_ok (f.heap_calls + 1) with
        | false =>
          rw [hb] at h3
          exact Or.inr (Or.inr (Or.inr (Or.inl ⟨h4, rfl, rfl, by simp [h3]⟩)))
        | true =>
          rw [hb] at h3
          exact Or.inr (Or.inr (Or.inr (Or.inr ⟨h4, rfl, rfl, by simp [h3]⟩)))
      · rw [if_neg c2]
        exact Or.inr (Or.inr (Or.inl ⟨h2, rfl, rfl⟩))
  · rw [if_neg c1]
    simp only [Bool.true_eq_false, if_false]
    by_cases c2 : f.txbuf.length = 0 ∧ (size * count) % env.SIZE_MOD > f.txbuf.max_length
    · rw [if_pos c2]
      have h3 := ram_write_fst env f buffer ((size * count) % env.SIZE_MOD)
      have h4 := ram_write_calls env f buffer ((size * count) % env.SIZE_MOD)
      generalize ram_write env f buffer ((size * count) % env.SIZE_MOD) = r2 at h3 h4
      cases hb : env.realloc_ok f.heap_calls with
      | false =>
        rw [hb] at h3
        exact Or.inr (Or.inl ⟨h4, rfl, by simp [h3]⟩)
      | true =>
        rw [hb] at h3
        exact Or.inr (Or.inr (Or.inl ⟨h4, rfl, by simp [h3]⟩))
    · rw [if_neg c2]
      exact Or.inl ⟨rfl, rfl⟩
/-- C9 (write return value).  With the handle flag clear `fs_write` returns 0
and changes nothing.  With a handle out: if every allocation the call makes
succeeds it returns the requested length `size * count` (the `size_t` product,
which is `size * count` itself when that is representable); if an allocation
the call makes fails it returns 0.  In every case the result is 0 or the
requested length, never a value in between. -/
theorem fs_write_return (env : Env) (f : ram_file_t) (buffer : List Byte) (size count : Nat) :
    (f.file.handle = 0 → fs_write env f buffer size count = (0, f)) ∧
    (f.file.handle ≠ 0 →
      ((∀ i, f.heap_calls ≤ i → i < (fs_write env f buffer size count).2.heap_calls →
          env.realloc_ok i = true) →
        (fs_write env f buffer size count).1 = (size * count) % env.SIZE_MOD ∧
        (size * count < env.SIZE_MOD → (fs_write env f buffer size count).1 = size * count)) ∧
      ((∃ i, f.heap_calls ≤ i ∧ i < (fs_write env f buffer size count).2.heap_calls ∧
          env.realloc_ok i = false) →
        (fs_write env f buffer size count).1 = 0)) ∧
    ((fs_write env f buffer size count).1 = 0 ∨
      (fs_write env f buffer size count).1 = (size * count) % env.SIZE_MOD) := by
  have key : f.file.handle ≠ 0 →
      ((∀ i, f.heap_calls ≤ i → i < (fs_write env f buffer size count).2.heap_calls →
          env.realloc_ok i = true) →
        (fs_write env f buffer size count).1 = (size * count) % env.SIZE_MOD) ∧
      ((∃ i, f.heap_calls ≤ i ∧ i < (fs_write env f buffer size count).2.heap_calls ∧
          env.realloc_ok i = false) →
        (fs_write env f buffer size count).1 = 0) ∧
      ((fs_write env f buffer size count).1 = 0 ∨
        (fs_write env f buffer size count).1 = (size * count) % env.SIZE_MOD) := by
    intro hh
    by_cases hn : (size * count) % env.SIZE_MOD = 0
    · have e : fs_write env f buffer size count = (0, f) := by simp [fs_write, hn]
      rw [e]
      refine ⟨fun _ => hn.symm, fun _ => rfl, Or.inl rfl⟩
    · rcases fs_write_paths env f buffer size count hh hn with
        ⟨c, r⟩ | ⟨c, a, r⟩ | ⟨c, a, r⟩ | ⟨c, a, b, r⟩ | ⟨c, a, b, r⟩
      · refine ⟨fun _ => r, ?_, Or.inr r⟩
        rintro ⟨i, h1, h2, -⟩
        omega
      · refine ⟨fun hall => ?_, fun _ => r, Or.inl r⟩
        have := hall f.heap_calls (le_refl _) (by omega)
        rw [a] at this
        exact absurd this (by simp)
      · refine ⟨fun _ => r, ?_, Or.inr r⟩
        rintro ⟨i, h1, h2, h3⟩
        have hi : i = f.heap_calls := by omega
        rw [hi, a] at h3
        exact absurd h3 (by simp)
      · refine ⟨fun hall => ?_, fun _ => r, Or.inl r⟩
        have := hall (f.heap_calls + 1) (by omega) (by omega)
        rw [b] at this
        exact absurd this (by simp)
      · refine ⟨fun _ => r, ?_, Or.inr r⟩
        rintro ⟨i, h1, h2, h3⟩
        have hi : i = f.heap_calls ∨ i = f.heap_calls + 1 := by omega
        rcases hi with hi | hi
        · rw [hi, a] at h3; exact absurd h3 (by simp)
        · rw [hi, b] at h3; exact absurd h3 (by simp)
  refine ⟨fun h0 => by simp [fs_write, h0], fun hh => ⟨fun hall => ?_, (key hh).2.1⟩, ?_⟩
  · have r := (key hh).1 hall
    exact ⟨r, fun hlt => by rw [r, Nat.mod_eq_of_lt hlt]⟩
  · by_cases hh : f.file.handle = 0
    · exact Or.inl (by simp [fs_write, hh])
    · exact (key hh).2.2

/-- Witness of C9: `"hello "` written with no handle out (returns 0, nothing
changes), into a fresh write session (returns 6), and 11 bytes written into a
fresh write session on a target without memory (the direct commit fails,
returns 0). -/
theorem fs_write_return_witness :
    fs_write env32 (v_file_init 8) hello 1 6 = (0, v_file_init 8) ∧
    (fs_write env32 (fs_open (v_file_init 8) "/ram/f" "w").2 hello 1 6).1 = 6 ∧
    (fs_write env32_nomem (fs_open (v_file_init 8) "/ram/f" "w").2 (hello ++ world) 1 11).1 = 0 :=
  ⟨(fs_write_return env32 (v_file_init 8) hello 1 6).1 (by decide),
   (((fs_write_return env32 (fs_open (v_file_init 8) "/ram/f" "w").2 hello 1 6).2.1
      (by decide)).1 (fun _ _ _ => rfl)).2 (by decide),
   ((fs_write_return env32_nomem (fs_open (v_file_init 8) "/ram/f" "w").2
      (hello ++ world) 1 11).2.1 (by decide)).2 ⟨0, by decide, by decide, rfl⟩⟩

/-- Counterexample to C10 as stated: after the `"hello world"` write session
has been closed, `fs_write` of one byte returns 1, not 0, and a later
`fs_close` changes the committed data and length. -/
theorem write_after_close_counterexample :
    committed hello_world_file = hello ++ world ∧
    (fs_write env32 hello_world_file [33] 1 1).1 = 1 ∧
    committed (fs_close env32 (fs_write env32 hello_world_file [33] 1 1).2) =
      hello ++ world ++ [33] ∧
    (fs_close env32 (fs_write env32 hello_world_file [33] 1 1).2).len = 12 := by
  decide

/-- C10, as amended (write after a write-mode close).  `fs_close` of a write
session leaves the handle flag set, so a following `fs_write` of a non-zero
length is accepted: with allocations succeeding it returns the requested
length, and after a later `fs_close` the committed data is the finalized
content followed by the new bytes.  `fs_write` returns 0 and changes nothing
when the handle flag is clear. -/
theorem write_after_write_close (env : Env) (f : ram_file_t) (fw mw : String)
    (calls : List WriteCall) (buffer : List Byte) (size count : Nat)
    (hh : f.file.handle = 0) (hw : mode_has_w mw = true)
    (hok : ∀ i, env.realloc_ok i = true)
    (hwf : ∀ c ∈ calls, c.wf)
    (hb : buffer.length = size * count) (hpos : 0 < size * count)
    (hfit : (written calls).length + buffer.length < env.SIZE_MOD) :
    (write_session env f fw mw calls).file.handle ≠ 0 ∧
    (fs_write env (write_session env f fw mw calls) buffer size count).1 = size * count ∧
    (fs_write env (write_session env f fw mw calls) buffer size count).1 ≠ 0 ∧
    committed (fs_close env
      (fs_write env (write_session env f fw mw calls) buffer size count).2) =
        written calls ++ buffer ∧
    (fs_close env (fs_write env (write_session env f fw mw calls) buffer size count).2).len =
      (written calls).length + buffer.length ∧
    (∀ v : ram_file_t, v.file.handle = 0 → fs_write env v buffer size count = (0, v)) := by
  obtain ⟨hi, -, -, -⟩ := write_session_ok env f fw mw calls hh hw hok hwf (by omega)
  obtain ⟨r, hi2⟩ := fs_write_winv env _ _ buffer size count hi hok hb hfit
  obtain ⟨-, -, c, l⟩ := fs_close_winv env _ _ hi2 hok (by simpa using hfit)
  refine ⟨hi.handle, by rw [r, hb], by rw [r, hb]; omega, c, by simpa using l, ?_⟩
  intro v hv
  simp [fs_write, hv]

/-- Witness of C10 as amended: one more byte written after the `"hello world"`
write session has been closed. -/
theorem write_after_write_close_witness :
    ((v_file_init 8).file.handle = 0 ∧ mode_has_w "w" = true ∧ 0 < 1 * 1) ∧
    ((write_session env32 (v_file_init 8) "/ram/f" "w" hello_world_calls).file.handle ≠ 0 ∧
      (fs_write env32 (write_session env32 (v_file_init 8) "/ram/f" "w" hello_world_calls)
        [33] 1 1).1 = 1 * 1 ∧
      (fs_write env32 (write_session env32 (v_file_init 8) "/ram/f" "w" hello_world_calls)
        [33] 1 1).1 ≠ 0 ∧
      committed (fs_close env32
        (fs_write env32 (write_session env32 (v_file_init 8) "/ram/f" "w" hello_world_calls)
          [33] 1 1).2) = written hello_world_calls ++ [33] ∧
      (fs_close env32
        (fs_write env32 (write_session env32 (v_file_init 8) "/ram/f" "w" hello_world_calls)
          [33] 1 1).2).len = (written hello_world_calls).length + [33].length ∧
      (∀ v : ram_file_t, v.file.handle = 0 → fs_write env32 v [33] 1 1 = (0, v))) :=
  ⟨by decide,
   write_after_write_close env32 (v_file_init 8) "/ram/f" "w" hello_world_calls [33] 1 1
    (by decide) (by decide) (fun _ => rfl) (by decide) (by decide) (by decide) (by decide)⟩

/-! ## The claims, continued -/

/-- C12 (reset wipes state).  In every state, whatever the host's hook does,
after `fs_reset` the committed data is absent, the handle flag is clear and
`fs_stat` reports not-found (-1) without touching `*st`; the same holds after
`fs_unlink`, which returns 0. -/
theorem reset_wipes (f : ram_file_t) (driver_reset : ram_file_t → ram_file_t)
    (filename path : String) (st : vfs_stat_t) :
    (fs_reset driver_reset f).data = none ∧
    (fs_reset driver_reset f).file.handle = 0 ∧
    fs_stat (fs_reset driver_reset f) path st = (-1, st) ∧
    (fs_unlink f filename).1 = 0 ∧
    (fs_unlink f filename).2.data = none ∧
    (fs_unlink f filename).2.file.handle = 0 ∧
    fs_stat (fs_unlink f filename).2 path st = (-1, st) := by
  simp [fs_reset, fs_unlink, fs_stat]

/-- Counterexample to C13 as stated: in the reachable state after a write
session, a read-mode open, a close and a second write-mode open (every
allocation succeeding), `len` is 0 and `remaining` is 3, and `fs_tell` wraps
around. -/
theorem remaining_le_len_counterexample :
    Reachable env32 8 reopened_for_write ∧
    reopened_for_write.len = 0 ∧ reopened_for_write.remaining = 3 ∧
    ¬ (reopened_for_write.remaining ≤ reopened_for_write.len) ∧
    fs_tell env32 reopened_for_write = 4294967293 :=
  ⟨⟨_, rfl⟩, by decide, by decide, by decide, by decide⟩

/-- C13, as amended (state invariant of read sessions).  In every state inside
a read session (reached from a reachable state by a successful read-mode
`fs_open` and `fs_read` calls only, allocations succeeding or not),
`remaining <= len` holds and `fs_tell` is `len - remaining` without
wrap-around. -/
theorem remaining_le_len (env : Env) (cap : Nat) (f : ram_file_t)
    (h : ReadSession env cap f) :
    f.remaining ≤ f.len ∧ fs_tell env f = f.len - f.remaining ∧
    fs_tell env f + f.remaining = f.len := by
  have hr := read_session_rinv h
  have h1 := hr.rem
  have h2 := rinv_tell hr
  exact ⟨h1, h2, by omega⟩

/-- Witness of C13 as amended: the `"hello world"` file after a 4-byte read. -/
theorem remaining_le_len_witness :
    ReadSession env32 8 (fs_read env32 hello_world_reading 1 4).2.2 ∧
    ((fs_read env32 hello_world_reading 1 4).2.2.remaining ≤
        (fs_read env32 hello_world_reading 1 4).2.2.len ∧
      fs_tell env32 (fs_read env32 hello_world_reading 1 4).2.2 =
        (fs_read env32 hello_world_reading 1 4).2.2.len -
          (fs_read env32 hello_world_reading 1 4).2.2.remaining ∧
      fs_tell env32 (fs_read env32 hello_world_reading 1 4).2.2 +
        (fs_read env32 hello_world_reading 1 4).2.2.remaining =
        (fs_read env32 hello_world_reading 1 4).2.2.len) :=
  have hs : ReadSession env32 8 (fs_read env32 hello_world_reading 1 4).2.2 :=
    ⟨hello_world_file, "/ram/f", "r", [(1, 4)],
      ⟨[.fopen "/ram/f" "w", .fwrite hello 1 6, .fwrite world 1 5, .fclose], rfl⟩,
      by decide, by decide, rfl⟩
  ⟨hs, remaining_le_len env32 8 _ hs⟩

/-- Counterexample to C15 as stated: after the `"hello world"` cycle (written,
closed, read, closed) the state is reachable, the data is absent, and `len` is
still 11, not 0. -/
theorem len_is_block_size_counterexample :
    Reachable env32 8 hello_world_cycled ∧
    hello_world_cycled.data = none ∧ hello_world_cycled.len = 11 :=
  ⟨⟨[.fopen "/ram/f" "w", .fwrite hello 1 6, .fwrite world 1 5, .fclose,
      .fopen "/ram/f" "r", .fread 1 20, .fclose], rfl⟩, by decide, by decide⟩

/-- C15, as amended (length invariant).  In every reachable state, `len` is
the size of the committed block whenever there is one, and `len` is 0 when the
data is absent while the handle flag is set; `len` is 0 in the initial state.
The three deletions (a `fs_close` in read mode, `fs_unlink`, `fs_reset`) free
the data and clear the handle flag in every state and leave `len` as it was,
so a deletion does not reset `len` to 0. -/
theorem len_is_block_size (env : Env) (cap : Nat) (f : ram_file_t)
    (h : Reachable env cap f) :
    (∀ d, f.data = some d → d.length = f.len) ∧
    (f.file.handle ≠ 0 → f.data = none → f.len = 0) ∧
    (v_file_init cap).data = none ∧ (v_file_init cap).len = 0 ∧
    (∀ g : ram_file_t, g.write = false →
      (fs_close env g).data = none ∧ (fs_close env g).file.handle = 0 ∧
      (fs_close env g).len = g.len) ∧
    (∀ (g : ram_file_t) (filename : String),
      (fs_unlink g filename).2.data = none ∧ (fs_unlink g filename).2.file.handle = 0 ∧
      (fs_unlink g filename).2.len = g.len) ∧
    (∀ g : ram_file_t,
      (fs_reset id g).data = none ∧ (fs_reset id g).file.handle = 0 ∧
      (fs_reset id g).len = g.len) := by
  have hi := reachable_inv h
  refine ⟨hi.block, hi.absent, rfl, rfl, ?_, ?_, ?_⟩
  · intro g hg
    simp [fs_close, hg]
  · intro g filename
    exact ⟨rfl, rfl, rfl⟩
  · intro g
    exact ⟨rfl, rfl, rfl⟩

/-- Witness of C15 as amended: the `"hello world"` file after its write
session, where the block has the 11 bytes that `len` records. -/
theorem len_is_block_size_witness :
    Reachable env32 8 hello_world_file ∧
    hello_world_file.data = some (hello ++ world) ∧ hello_world_file.len = 11 ∧
    ((∀ d, hello_world_file.data = some d → d.length = hello_world_file.len) ∧
      (hello_world_file.file.handle ≠ 0 → hello_world_file.data = none →
        hello_world_file.len = 0) ∧
      (v_file_init 8).data = none ∧ (v_file_init 8).len = 0 ∧
      (∀ g : ram_file_t, g.write = false →
        (fs_close env32 g).data = none ∧ (fs_close env32 g).file.handle = 0 ∧
        (fs_close env32 g).len = g.len) ∧
      (∀ (g : ram_file_t) (filename : String),
        (fs_unlink g filename).2.data = none ∧ (fs_unlink g filename).2.file.handle = 0 ∧
        (fs_unlink g filename).2.len = g.len) ∧
      (∀ g : ram_file_t,
        (fs_reset id g).data = none ∧ (fs_reset id g).file.handle = 0 ∧
        (fs_reset id g).len = g.len)) :=
  have hs : Reachable env32 8 hello_world_file :=
    ⟨[.fopen "/ram/f" "w", .fwrite hello 1 6, .fwrite world 1 5, .fclose], rfl⟩
  ⟨hs, by decide, by decide, len_is_block_size env32 8 hello_world_file hs⟩

/-- Counterexample to C16 as stated: in the initial state, where nothing was
ever written, a read-mode `fs_open` returns `NULL`. -/
theorem open_r_counterexample :
    Reachable env32 8 (v_file_init 8) ∧ (v_file_init 8).write = false ∧
    mode_has_w "r" = false ∧
    (fs_open (v_file_init 8) "/ram/f" "r").1 = none :=
  ⟨⟨[], rfl⟩, by decide, by decide, by decide⟩

/-- C16, as amended (read-mode open).  In every state a `fs_open` whose mode
has no `w` places the read pointer at the start of the data (`NULL` when there
is none), sets `remaining = len` and reports `len` as the size; it returns a
handle exactly when the handle flag is set, and `NULL` when nothing was ever
written or the file was deleted.  With the flag set it succeeds also on absent
data (a zero-length file). -/
theorem open_r (f : ram_file_t) (filename mode : String)
    (hr : mode_has_w mode = false) :
    ((fs_open f filename mode).1 ≠ none ↔ f.file.handle ≠ 0) ∧
    (fs_open f filename mode).2.pos = f.data.map (fun _ => 0) ∧
    (fs_open f filename mode).2.remaining = f.len ∧
    (fs_open f filename mode).2.file.size = f.len ∧
    (fs_open f filename mode).2.data = f.data ∧
    (fs_open f filename mode).2.len = f.len ∧
    (fs_open f filename mode).2.file.handle = f.file.handle := by
  simp only [fs_open, hr, Bool.false_eq_true, if_false, and_true]
  by_cases h0 : f.file.handle = 0 <;> simp [h0]

/-- Witness of C16 as amended: opening the `"hello world"` file for reading. -/
theorem open_r_witness :
    mode_has_w "rb" = false ∧ hello_world_file.file.handle ≠ 0 ∧
    (((fs_open hello_world_file "/ram/f" "rb").1 ≠ none ↔ hello_world_file.file.handle ≠ 0) ∧
      (fs_open hello_world_file "/ram/f" "rb").2.pos =
        hello_world_file.data.map (fun _ => 0) ∧
      (fs_open hello_world_file "/ram/f" "rb").2.remaining = hello_world_file.len ∧
      (fs_open hello_world_file "/ram/f" "rb").2.file.size = hello_world_file.len ∧
      (fs_open hello_world_file "/ram/f" "rb").2.data = hello_world_file.data ∧
      (fs_open hello_world_file "/ram/f" "rb").2.len = hello_world_file.len ∧
      (fs_open hello_world_file "/ram/f" "rb").2.file.handle =
        hello_world_file.file.handle) :=
  ⟨by decide, by decide, open_r hello_world_file "/ram/f" "rb" (by decide)⟩

/-- The commit log of `fs_write` has one entry for each `realloc` the call makes. -/
theorem fs_write_commits_length (env : Env) (f : ram_file_t) (buffer : List Byte)
    (size count : Nat) :
    f.heap_calls + (fs_write_commits env f size count).length =
      (fs_write env f buffer size count).2.heap_calls := by
  unfold fs_write fs_write_commits
  simp only
  by_cases c1 : (size * count) % env.SIZE_MOD = 0 ∨ f.file.handle = 0
  · rw [if_pos c1, if_pos c1]; rfl
  · rw [if_neg c1, if_neg c1]
    by_cases c2 : f.txbuf.length ≠ 0 ∧
        (f.txbuf.length + (size * count) % env.SIZE_MOD) % env.SIZE_MOD > f.txbuf.max_length
    · rw [if_pos c2, if_pos c2]
      have h2 := ram_write_calls env f f.txbuf.data f.txbuf.length
      generalize ram_write env f f.txbuf.data f.txbuf.length = r at h2
      by_cases c3 : r.1 = false
      · rw [if_pos c3, if_pos c3]
        simp only [List.length_cons, List.length_nil]
        omega
      · rw [if_neg c3, if_neg c3]
        by_cases c4 : r.2.txbuf.length = 0 ∧ (size * count) % env.SIZE_MOD > r.2.txbuf.max_length
        · rw [if_pos c4, if_pos c4]
          have h4 := ram_write_calls env r.2 buffer ((size * count) % env.SIZE_MOD)
          simp only [List.length_cons, List.length_nil]
          omega
        · rw [if_neg c4, if_neg c4]
          simp only [List.length_cons, List.length_nil]
          omega
    · rw [if_neg c2, if_neg c2]
      simp only [Bool.true_eq_false, if_false]
      by_cases c4 : f.txbuf.length = 0 ∧ (size * count) % env.SIZE_MOD > f.txbuf.max_length
      · rw [if_pos c4, if_pos c4]
        have h4 := ram_write_calls env f buffer ((size * count) % env.SIZE_MOD)
        simp only [List.length_cons, List.length_nil]
        omega
      · rw [if_neg c4, if_neg c4]
        rfl

/-- The commit log of `fs_close` has one entry for each `realloc` the call makes. -/
theorem fs_close_commits_length (env : Env) (f : ram_file_t) :
    f.heap_calls + (fs_close_commits f).length = (fs_close env f).heap_calls := by
  unfold fs_close fs_close_commits
  by_cases c1 : f.write = true
  · rw [if_pos c1, if_pos c1]
    by_cases c2 : f.txbuf.length ≠ 0
    · rw [if_pos c2, if_pos c2, ram_write_calls]
      rfl
    · rw [if_neg c2, if_neg c2]
      rfl
  · rw [if_neg c1, if_neg c1]
    rfl

theorem ram_write_max_length (env : Env) (f : ram_file_t) (s : List Byte) (n : Nat) :
    (ram_write env f s n).2.txbuf.max_length = f.txbuf.max_length ∧
    (ram_write env f s n).2.txbuf.data = f.txbuf.data ∧
    (ram_write env f s n).2.file = f.file ∧
    (ram_write env f s n).2.write = f.write := by
  unfold ram_write realloc
  cases env.realloc_ok f.heap_calls <;> exact ⟨rfl, rfl, rfl, rfl⟩

/-- The four ways a well-formed `fs_write` runs inside a write session when
every allocation succeeds: stage only; commit the staged bytes, then stage;
commit the caller's bytes directly; commit the staged bytes, then the caller's
bytes. -/
theorem fs_write_cases (env : Env) (f : ram_file_t) (S buffer : List Byte) (size count : Nat)
    (h : WInv f S) (hok : ∀ i, env.realloc_ok i = true)
    (hwf : buffer.length = size * count)
    (hfit : S.length + buffer.length < env.SIZE_MOD) :
    (fs_write env f buffer size count).2.txbuf.max_length = f.txbuf.max_length ∧
    ((f.txbuf.length + buffer.length ≤ f.txbuf.max_length ∧
        fs_write_commits env f size count = [] ∧
        (fs_write env f buffer size count).2.txbuf.length =
          f.txbuf.length + buffer.length ∧
        (fs_write env f buffer size count).2.len = f.len) ∨
      (f.txbuf.length ≠ 0 ∧ f.txbuf.max_length < f.txbuf.length + buffer.length ∧
        buffer.length ≤ f.txbuf.max_length ∧
        fs_write_commits env f size count = [f.txbuf.length] ∧
        (fs_write env f buffer size count).2.txbuf.length = buffer.length ∧
        (fs_write env f buffer size count).2.len = f.len + f.txbuf.length) ∨
      (f.txbuf.length = 0 ∧ f.txbuf.max_length < buffer.length ∧
        fs_write_commits env f size count = [buffer.length] ∧
        (fs_write env f buffer size count).2.txbuf.length = 0 ∧
        (fs_write env f buffer size count).2.len = f.len + buffer.length) ∨
      (f.txbuf.length ≠ 0 ∧ f.txbuf.max_length < buffer.length ∧
        fs_write_commits env f size count = [f.txbuf.length, buffer.length] ∧
        (fs_write env f buffer size count).2.txbuf.length = 0 ∧
        (fs_write env f buffer size count).2.len =
          f.len + f.txbuf.length + buffer.length)) := by
  have hS := winv_length_eq h
  have hh := h.handle
  have hlen := h.len
  have hfits := h.fits
  have hL : (size * count) % env.SIZE_MOD = buffer.length := by
    rw [← hwf]; exact Nat.mod_eq_of_lt (by omega)
  have hT : (f.txbuf.length + buffer.length) % env.SIZE_MOD = f.txbuf.length + buffer.length :=
    Nat.mod_eq_of_lt (by omega)
  unfold fs_write fs_write_commits
  simp only [hL, hT]
  by_cases hz : buffer.length = 0
  · simp only [hz, true_or, if_true, Nat.add_zero]
    exact ⟨trivial, Or.inl ⟨hfits, trivial, trivial, trivial⟩⟩
  · simp only [hz, hh, or_self, if_false]
    by_cases hfl : f.txbuf.length ≠ 0 ∧ f.txbuf.length + buffer.length > f.txbuf.max_length
    · obtain ⟨g, hg, hgi, hg0, hgm, -, -⟩ := flush_ok env f S h (hok _) (by omega)
      have hgl := winv_length_eq hgi
      rw [if_pos hfl, if_pos hfl, hg]
      simp only [Bool.true_eq_false, if_false]
      by_cases hby : buffer.length > f.txbuf.max_length
      · obtain ⟨g2, hg2, hg2i, hg20, -, -⟩ := bypass_ok env g S buffer hgi hg0 (hok _) hfit
        have hg2l := winv_length_eq hg2i
        have hg2m := (ram_write_max_length env g buffer buffer.length).1
        rw [hg2] at hg2m
        simp only at hg2m
        simp only [List.length_append] at hg2l
        have hc : g.txbuf.length = 0 ∧ buffer.length > g.txbuf.max_length :=
          ⟨hg0, by rw [hgm]; exact hby⟩
        rw [if_pos hc, if_pos hc, hg2]
        exact ⟨by rw [hg2m, hgm],
          Or.inr (Or.inr (Or.inr ⟨hfl.1, hby, rfl, hg20, by simp only; omega⟩))⟩
      · have hc : ¬ (g.txbuf.length = 0 ∧ buffer.length > g.txbuf.max_length) :=
          fun hc => hby (by rw [← hgm]; exact hc.2)
        rw [if_neg hc, if_neg hc]
        refine ⟨hgm, Or.inr (Or.inl ⟨hfl.1, hfl.2, by omega, rfl, ?_, ?_⟩)⟩
        · show (g.txbuf.length + buffer.length) % env.SIZE_MOD = buffer.length
          rw [hg0, Nat.zero_add]
          exact Nat.mod_eq_of_lt (by omega)
        · show g.len = f.len + f.txbuf.length
          omega
    · rw [if_neg hfl, if_neg hfl]
      simp only [Bool.true_eq_false, if_false]
      by_cases hby : f.txbuf.length = 0 ∧ buffer.length > f.txbuf.max_length
      · obtain ⟨g2, hg2, hg2i, hg20, -, -⟩ := bypass_ok env f S buffer h hby.1 (hok _) hfit
        have hg2l := winv_length_eq hg2i
        have hg2m := (ram_write_max_length env f buffer buffer.length).1
        rw [hg2] at hg2m
        simp only at hg2m
        simp only [List.length_append] at hg2l
        rw [if_pos hby, if_pos hby, hg2]
        exact ⟨hg2m, Or.inr (Or.inr (Or.inl ⟨hby.1, hby.2, rfl, hg20, by simp only; omega⟩))⟩
      · rw [if_neg hby, if_neg hby]
        have hroom : f.txbuf.length + buffer.length ≤ f.txbuf.max_length := by
          by_contra hc
          by_cases h0 : f.txbuf.length = 0
          · exact hby ⟨h0, by omega⟩
          · exact hfl ⟨h0, by omega⟩
        exact ⟨rfl, Or.inl ⟨hroom, rfl, hT, rfl⟩⟩
/-- C17 (staging bypass).  In a write-session state holding the stream `S`
(committed bytes followed by staged bytes), a `fs_write` of `n` bytes with `n`
above the staging capacity, allocations succeeding, returns `n`, leaves the
staging buffer empty, and leaves as committed data the old committed data,
then the previously staged bytes, then the `n` incoming bytes; `len` grows by
the staged length plus `n`. -/
theorem staging_bypass (env : Env) (f : ram_file_t) (S buffer : List Byte) (size count : Nat)
    (h : WInv f S) (hok : ∀ i, env.realloc_ok i = true)
    (hwf : buffer.length = size * count)
    (hbig : f.txbuf.data.length < buffer.length)
    (hfit : S.length + buffer.length < env.SIZE_MOD) :
    (fs_write env f buffer size count).1 = buffer.length ∧
    (fs_write env f buffer size count).2.txbuf.length = 0 ∧
    staged (fs_write env f buffer size count).2 = [] ∧
    committed (fs_write env f buffer size count).2 = committed f ++ staged f ++ buffer ∧
    (fs_write env f buffer size count).2.len = f.len + f.txbuf.length + buffer.length := by
  obtain ⟨r, hi⟩ := fs_write_winv env f S buffer size count h hok hwf hfit
  have hmax := h.max
  have hl := winv_length_eq hi
  have hS := winv_length_eq h
  have h0 : (fs_write env f buffer size count).2.txbuf.length = 0 := by
    rcases (fs_write_cases env f S buffer size count h hok hwf hfit).2 with
      ⟨c, -⟩ | ⟨-, -, c, -⟩ | ⟨-, -, -, c, -⟩ | ⟨-, -, -, c, -⟩
    · omega
    · omega
    · exact c
    · exact c
  have hst : staged (fs_write env f buffer size count).2 = [] := by
    simp [staged, h0]
  refine ⟨r, h0, hst, ?_, ?_⟩
  · have := hi.stream
    rw [hst, List.append_nil] at this
    rw [this, h.stream]
  · simp only [List.length_append] at hl
    omega

/-- Witness of C17: one write of 3 * 8 + 1 bytes into a fresh write session on
a staging array of 8 bytes commits exactly those bytes. -/
theorem staging_bypass_witness :
    (fresh_writing.txbuf.data.length = 8 ∧ payload25.length = 3 * 8 + 1 ∧
      committed fresh_writing = [] ∧ staged fresh_writing = [] ∧
      committed (fs_close env32 (fs_write env32 fresh_writing payload25 1 25).2) = payload25) ∧
    ((fs_write env32 fresh_writing payload25 1 25).1 = payload25.length ∧
      (fs_write env32 fresh_writing payload25 1 25).2.txbuf.length = 0 ∧
      staged (fs_write env32 fresh_writing payload25 1 25).2 = [] ∧
      committed (fs_write env32 fresh_writing payload25 1 25).2 =
        committed fresh_writing ++ staged fresh_writing ++ payload25 ∧
      (fs_write env32 fresh_writing payload25 1 25).2.len =
        fresh_writing.len + fresh_writing.txbuf.length + payload25.length) :=
  ⟨by decide,
   staging_bypass env32 fresh_writing [] payload25 1 25
    ⟨by decide, by decide, by decide, by decide, by decide, by decide, by decide⟩
    (fun _ => rfl) (by decide) (by decide) (by decide)⟩

/-- C19, the code at the failing input.  The `"hello world"` file is open for
reading.  A write-mode `fs_open` is rejected with `NULL`, but it has set the
mode flag: the state differs from the one before, and the following `fs_close`
neither frees the data nor clears the handle, as it does without the rejected
open. -/
theorem rejected_open_sets_write_flag :
    hello_world_reading.file.handle ≠ 0 ∧ hello_world_reading.write = false ∧
    (fs_open hello_world_reading "/ram/g" "w").1 = none ∧
    (fs_open hello_world_reading "/ram/g" "w").2.write = true ∧
    (fs_open hello_world_reading "/ram/g" "w").2 ≠ hello_world_reading ∧
    (fs_close env32 hello_world_reading).data = none ∧
    (fs_close env32 hello_world_reading).file.handle = 0 ∧
    (fs_close env32 (fs_open hello_world_reading "/ram/g" "w").2).data =
      some (hello ++ world) ∧
    (fs_close env32 (fs_open hello_world_reading "/ram/g" "w").2).file.handle = 1 := by
  decide

/-- C11, the code at the failing input.  `"hello "` is staged; the write of
`"world"` must first commit the staged bytes and that allocation fails.  The
call returns 0 and the committed store is empty, but `"hello "` is still
staged, and a later `fs_close` whose allocation succeeds finalizes a file
holding `"hello "`. -/
theorem staged_bytes_survive_failed_flush :
    (fs_write env32_fail_first
      (run env32_fail_first (v_file_init 8) [.fopen "/ram/f" "w", .fwrite hello 1 6])
      world 1 5).1 = 0 ∧
    flush_failed.data = none ∧ flush_failed.len = 0 ∧
    staged flush_failed = hello ∧
    env32_fail_first.realloc_ok flush_failed.heap_calls = true ∧
    committed (fs_close env32_fail_first flush_failed) = hello ∧
    (fs_close env32_fail_first flush_failed).len = 6 := by
  decide

/-- C20 (write-session stream invariant).  After a successful write-mode open
from a state with no handle out and any well-formed `fs_write` calls, every
allocation succeeding: the committed data followed by the staged bytes is the
concatenation of all bytes written; `fs_stat` returns 0 and reports the total
written minus the staged length; and `fs_close` moves the staged bytes to the
end of the data, leaving nothing staged. -/
theorem write_stream (env : Env) (f : ram_file_t) (fw mw path : String)
    (calls : List WriteCall) (st : vfs_stat_t)
    (hh : f.file.handle = 0) (hw : mode_has_w mw = true)
    (hok : ∀ i, env.realloc_ok i = true)
    (hwf : ∀ c ∈ calls, c.wf)
    (hfit : (written calls).length < env.SIZE_MOD) :
    committed (fs_writes env (fs_open f fw mw).2 calls) ++
      staged (fs_writes env (fs_open f fw mw).2 calls) = written calls ∧
    (staged (fs_writes env (fs_open f fw mw).2 calls)).length =
      (fs_writes env (fs_open f fw mw).2 calls).txbuf.length ∧
    (fs_stat (fs_writes env (fs_open f fw mw).2 calls) path st).1 = 0 ∧
    (fs_stat (fs_writes env (fs_open f fw mw).2 calls) path st).2.st_size =
      (written calls).length - (fs_writes env (fs_open f fw mw).2 calls).txbuf.length ∧
    committed (fs_close env (fs_writes env (fs_open f fw mw).2 calls)) =
      committed (fs_writes env (fs_open f fw mw).2 calls) ++
        staged (fs_writes env (fs_open f fw mw).2 calls) ∧
    staged (fs_close env (fs_writes env (fs_open f fw mw).2 calls)) = [] ∧
    (fs_close env (fs_writes env (fs_open f fw mw).2 calls)).len = (written calls).length := by
  have h1 := (fs_open_w_ok f fw mw hh hw).2
  have h2 := fs_writes_winv env calls _ _ h1 hok hwf (by simpa using hfit)
  simp only [List.nil_append] at h2
  obtain ⟨-, c0, c1, c2⟩ := fs_close_winv env _ _ h2 hok hfit
  have hS := winv_length_eq h2
  have hne := h2.handle
  have hfits := h2.fits
  have hmax := h2.max
  refine ⟨h2.stream, ?_, ?_, ?_, ?_, ?_, c2⟩
  · simp only [staged, List.length_take]
    omega
  · simp [fs_stat, hne]
  · simp only [fs_stat, hne, ne_eq, not_false_eq_true, if_true]
    omega
  · rw [c1, h2.stream]
  · simp [staged, c0]

/-- Witness of C20: the `"hello world"` scenario before the close, with
`"hello "` committed and `"world"` staged. -/
theorem write_stream_witness :
    ((v_file_init 8).file.handle = 0 ∧ mode_has_w "w" = true ∧
      committed hello_world_writing = hello ∧ staged hello_world_writing = world) ∧
    (committed (fs_writes env32 (fs_open (v_file_init 8) "/ram/f" "w").2 hello_world_calls) ++
        staged (fs_writes env32 (fs_open (v_file_init 8) "/ram/f" "w").2 hello_world_calls) =
        written hello_world_calls ∧
      (staged (fs_writes env32 (fs_open (v_file_init 8) "/ram/f" "w").2
        hello_world_calls)).length =
        (fs_writes env32 (fs_open (v_file_init 8) "/ram/f" "w").2
          hello_world_calls).txbuf.length ∧
      (fs_stat (fs_writes env32 (fs_open (v_file_init 8) "/ram/f" "w").2 hello_world_calls)
        "/ram/f" ⟨0⟩).1 = 0 ∧
      (fs_stat (fs_writes env32 (fs_open (v_file_init 8) "/ram/f" "w").2 hello_world_calls)
        "/ram/f" ⟨0⟩).2.st_size =
        (written hello_world_calls).length -
          (fs_writes env32 (fs_open (v_file_init 8) "/ram/f" "w").2
            hello_world_calls).txbuf.length ∧
      committed (fs_close env32
        (fs_writes env32 (fs_open (v_file_init 8) "/ram/f" "w").2 hello_world_calls)) =
        committed (fs_writes env32 (fs_open (v_file_init 8) "/ram/f" "w").2
          hello_world_calls) ++
          staged (fs_writes env32 (fs_open (v_file_init 8) "/ram/f" "w").2
            hello_world_calls) ∧
      staged (fs_close env32
        (fs_writes env32 (fs_open (v_file_init 8) "/ram/f" "w").2 hello_world_calls)) = [] ∧
      (fs_close env32
        (fs_writes env32 (fs_open (v_file_init 8) "/ram/f" "w").2 hello_world_calls)).len =
        (written hello_world_calls).length) :=
  ⟨by decide,
   write_stream env32 (v_file_init 8) "/ram/f" "w" "/ram/f" hello_world_calls ⟨0⟩
    (by decide) (by decide) (fun _ => rfl) (by decide) (by decide)⟩
/-! ## Counting commits -/

theorem pairs_exceed_cons (cap x : Nat) (L : List Nat) (h : pairs_exceed cap L)
    (hx : ∀ y ∈ L.head?, cap < x + y) : pairs_exceed cap (x :: L) := by
  cases L with
  | nil => trivial
  | cons y rest => exact ⟨hx y rfl, h⟩

theorem pairs_exceed_tail (cap x : Nat) (L : List Nat) (h : pairs_exceed cap (x :: L)) :
    pairs_exceed cap L := by
  cases L with
  | nil => trivial
  | cons y rest => exact h.2

/-- A log whose consecutive pairs exceed `cap` has at most
`2 * (sum / (cap + 1)) + 1` entries. -/
theorem pairs_exceed_length (cap : Nat) :
    ∀ L : List Nat, pairs_exceed cap L → L.length ≤ 2 * (L.sum / (cap + 1)) + 1
  | [], _ => by simp
  | [a], _ => by simp
  | a :: b :: rest, h => by
    have ih := pairs_exceed_length cap rest (pairs_exceed_tail cap b rest h.2)
    have hab : cap + 1 ≤ a + b := h.1
    have h1 : rest.sum / (cap + 1) + 1 ≤ (a + b + rest.sum) / (cap + 1) := by
      rw [← Nat.add_div_right _ (Nat.succ_pos cap)]
      exact Nat.div_le_div_right (by omega)
    simp only [List.length_cons, List.sum_cons]
    rw [← Nat.add_assoc]
    omega

/-- The commit log of the rest of a write session, from a state holding the
stream `S`: the first commit takes at least the bytes staged now, consecutive
commits together exceed the capacity, the commits add up to the staged bytes
plus the bytes still to be written, and there is one `realloc` for each. -/
theorem session_commits_spec (env : Env) (calls : List WriteCall) :
    ∀ (f : ram_file_t) (S : List Byte), WInv f S →
      (∀ i, env.realloc_ok i = true) → (∀ c ∈ calls, c.wf) →
      S.length + (written calls).length < env.SIZE_MOD →
      pairs_exceed f.txbuf.max_length (session_commits env f calls) ∧
      (∀ y ∈ (session_commits env f calls).head?, f.txbuf.length ≤ y) ∧
      (session_commits env f calls).sum = f.txbuf.length + (written calls).length ∧
      f.heap_calls + (session_commits env f calls).length =
        (fs_close env (fs_writes env f calls)).heap_calls := by
  induction calls with
  | nil =>
    intro f S h _ _ _
    have hl := fs_close_commits_length env f
    simp only [session_commits, fs_writes, written, List.length_nil, Nat.add_zero]
    refine ⟨?_, ?_, ?_, hl⟩
    · unfold fs_close_commits; split_ifs <;> trivial
    · unfold fs_close_commits
      split_ifs <;> simp
    · unfold fs_close_commits
      rw [if_pos h.write]
      split_ifs with h0
      · simp
      · simp only [List.sum_nil]; omega
  | cons c cs ih =>
    intro f S h hok hwf hfit
    simp only [written, List.length_append] at hfit
    have hc : c.buffer.length = c.size * c.count := hwf c (List.mem_cons_self _ _)
    obtain ⟨-, hg⟩ := fs_write_winv env f S c.buffer c.size c.count h hok hc (by omega)
    obtain ⟨hm, hcases⟩ := fs_write_cases env f S c.buffer c.size c.count h hok hc (by omega)
    have hcl := fs_write_commits_length env f c.buffer c.size c.count
    obtain ⟨i1, i2, i3, i4⟩ := ih _ _ hg hok (fun x hx => hwf x (List.mem_cons_of_mem _ hx))
      (by simp only [List.length_append]; omega)
    rw [hm] at i1
    simp only [session_commits, fs_writes, written, List.length_append, List.sum_append]
    refine ⟨?_, ?_, ?_, by omega⟩
    · rcases hcases with ⟨-, e, -, -⟩ | ⟨-, a, -, e, t, -⟩ | ⟨-, a, e, t, -⟩ | ⟨-, a, e, t, -⟩
      · rw [e]; exact i1
      · rw [e]
        refine pairs_exceed_cons _ _ _ i1 (fun y hy => ?_)
        have := i2 y hy
        omega
      · rw [e]
        refine pairs_exceed_cons _ _ _ i1 (fun y _ => ?_)
        omega
      · rw [e]
        exact ⟨by omega, pairs_exceed_cons _ _ _ i1 (fun y _ => by omega)⟩
    · rcases hcases with ⟨-, e, t, -⟩ | ⟨-, -, -, e, -, -⟩ | ⟨a, -, e, -, -⟩ | ⟨-, -, e, -, -⟩
      · rw [e]
        intro y hy
        have := i2 y hy
        omega
      · rw [e]; intro y hy; simp at hy; omega
      · rw [e]; intro y hy; simp at hy; omega
      · rw [e]; intro y hy; simp at hy; omega
    · rcases hcases with ⟨-, e, t, -⟩ | ⟨-, -, -, e, t, -⟩ | ⟨a, -, e, t, -⟩ | ⟨-, -, e, t, -⟩
      · rw [e, i3]; simp only [List.sum_nil]; omega
      · rw [e, i3]; simp only [List.sum_cons, List.sum_nil]; omega
      · rw [e, i3]; simp only [List.sum_cons, List.sum_nil]; omega
      · rw [e, i3]; simp only [List.sum_cons, List.sum_nil]; omega
/-- C18 (grow-count bound).  In a write session from a state with no handle
out (write-mode open, well-formed writes of `N` bytes in total, close), every
allocation succeeding, with `cap` the staging capacity: the commit log has one
entry for each `realloc` made, its entries add up to `N`, any two consecutive
commits together commit more than `cap` bytes, and so the number of commits is
at most `2 * (N / (cap + 1)) + 1`, a bound that does not depend on how the
bytes are split into calls. -/
theorem commit_count_bound (env : Env) (f : ram_file_t) (fw mw : String)
    (calls : List WriteCall)
    (hh : f.file.handle = 0) (hw : mode_has_w mw = true)
    (hok : ∀ i, env.realloc_ok i = true)
    (hwf : ∀ c ∈ calls, c.wf)
    (hfit : (written calls).length < env.SIZE_MOD) :
    f.heap_calls + (session_commits env (fs_open f fw mw).2 calls).length =
      (write_session env f fw mw calls).heap_calls ∧
    (session_commits env (fs_open f fw mw).2 calls).sum = (written calls).length ∧
    pairs_exceed f.txbuf.data.length (session_commits env (fs_open f fw mw).2 calls) ∧
    (session_commits env (fs_open f fw mw).2 calls).length ≤
      2 * ((written calls).length / (f.txbuf.data.length + 1)) + 1 ∧
    (write_session env f fw mw calls).heap_calls - f.heap_calls ≤
      2 * ((written calls).length / (f.txbuf.data.length + 1)) + 1 := by
  have h1 := (fs_open_w_ok f fw mw hh hw).2
  obtain ⟨a, -, c, d⟩ := session_commits_spec env calls _ _ h1 hok hwf (by simpa using hfit)
  have e1 : (fs_open f fw mw).2.txbuf.max_length = f.txbuf.data.length := by
    simp [fs_open, hw, hh]
  have e2 : (fs_open f fw mw).2.txbuf.length = 0 := by
    simp [fs_open, hw, hh]
  have e3 : (fs_open f fw mw).2.heap_calls = f.heap_calls := by
    simp [fs_open, hw, hh]
  rw [e1] at a
  rw [e2, Nat.zero_add] at c
  rw [e3] at d
  have hb := pairs_exceed_length _ _ a
  rw [c] at hb
  unfold write_session
  exact ⟨d, c, a, hb, by omega⟩

/-- Witness of C18: the `"hello world"` session on a staging array of 8 bytes
makes the two commits of 6 and 5 bytes, within the bound
`2 * (11 / 9) + 1 = 3`. -/
theorem commit_count_bound_witness :
    ((v_file_init 8).file.handle = 0 ∧ mode_has_w "w" = true ∧
      session_commits env32 (fs_open (v_file_init 8) "/ram/f" "w").2 hello_world_calls =
        [6, 5]) ∧
    ((v_file_init 8).heap_calls +
        (session_commits env32 (fs_open (v_file_init 8) "/ram/f" "w").2
          hello_world_calls).length =
        (write_session env32 (v_file_init 8) "/ram/f" "w" hello_world_calls).heap_calls ∧
      (session_commits env32 (fs_open (v_file_init 8) "/ram/f" "w").2 hello_world_calls).sum =
        (written hello_world_calls).length ∧
      pairs_exceed (v_file_init 8).txbuf.data.length
        (session_commits env32 (fs_open (v_file_init 8) "/ram/f" "w").2 hello_world_calls) ∧
      (session_commits env32 (fs_open (v_file_init 8) "/ram/f" "w").2
        hello_world_calls).length ≤
        2 * ((written hello_world_calls).length /
          ((v_file_init 8).txbuf.data.length + 1)) + 1 ∧
      (write_session env32 (v_file_init 8) "/ram/f" "w" hello_world_calls).heap_calls -
        (v_file_init 8).heap_calls ≤
        2 * ((written hello_world_calls).length /
          ((v_file_init 8).txbuf.data.length + 1)) + 1) :=
  ⟨by decide,
   commit_count_bound env32 (v_file_init 8) "/ram/f" "w" hello_world_calls
    (by decide) (by decide) (fun _ => rfl) (by decide) (by decide)⟩
/-! ## Staging bounds -/

theorem ram_write_txbuf (env : Env) (f : ram_file_t) (s : List Byte) (n : Nat) :
    ((ram_write env f s n).1 = true ∧ (ram_write env f s n).2.txbuf.length = 0 ∧
      (ram_write env f s n).2.txbuf.s = some 0) ∨
    ((ram_write env f s n).1 = false ∧ (ram_write env f s n).2.txbuf = f.txbuf) := by
  unfold ram_write realloc
  cases env.realloc_ok f.heap_calls
  · exact Or.inr ⟨rfl, rfl⟩
  · exact Or.inl ⟨rfl, rfl, rfl⟩

theorem ram_write_sinv (env : Env) (cap : Nat) (f : ram_file_t) (s : List Byte) (n : Nat)
    (h : SInv cap f) : SInv cap (ram_write env f s n).2 := by
  obtain ⟨m, d, fl, -⟩ := ram_write_max_length env f s n
  obtain ⟨h1, h2, h3, h4⟩ := h
  refine ⟨by rw [d]; exact h1, ?_, by rw [m]; exact h3, by rw [m, fl]; exact h4⟩
  rcases ram_write_txbuf env f s n with ⟨-, t, -⟩ | ⟨-, t⟩
  · rw [t]; exact Nat.zero_le _
  · rw [t]; exact h2

theorem ram_write_pinv (env : Env) (f : ram_file_t) (s : List Byte) (n : Nat)
    (h : PInv f) : PInv (ram_write env f s n).2 := by
  obtain ⟨-, -, fl, -⟩ := ram_write_max_length env f s n
  intro hh
  rw [fl] at hh
  rcases ram_write_txbuf env f s n with ⟨-, t, p⟩ | ⟨-, t⟩
  · rw [t, p]
  · rw [t]; exact h hh

/-- The state in which `fs_write` goes on after its first `if`. -/
theorem fs_write_flushed (env : Env) (cap : Nat) (f : ram_file_t) (length : Nat)
    (h : SInv cap f) :
    SInv cap (if f.txbuf.length ≠ 0 ∧
        (f.txbuf.length + length) % env.SIZE_MOD > f.txbuf.max_length
      then ram_write env f f.txbuf.data f.txbuf.length else (true, f)).2 ∧
    (PInv f → PInv (if f.txbuf.length ≠ 0 ∧
        (f.txbuf.length + length) % env.SIZE_MOD > f.txbuf.max_length
      then ram_write env f f.txbuf.data f.txbuf.length else (true, f)).2) ∧
    (if f.txbuf.length ≠ 0 ∧
        (f.txbuf.length + length) % env.SIZE_MOD > f.txbuf.max_length
      then ram_write env f f.txbuf.data f.txbuf.length else (true, f)).2.file = f.file ∧
    ((if f.txbuf.length ≠ 0 ∧
        (f.txbuf.length + length) % env.SIZE_MOD > f.txbuf.max_length
      then ram_write env f f.txbuf.data f.txbuf.length else (true, f)).1 = true →
      (if f.txbuf.length ≠ 0 ∧
          (f.txbuf.length + length) % env.SIZE_MOD > f.txbuf.max_length
        then ram_write env f f.txbuf.data f.txbuf.length else (true, f)).2.txbuf.length = 0 ∨
      ((if f.txbuf.length ≠ 0 ∧
          (f.txbuf.length + length) % env.SIZE_MOD > f.txbuf.max_length
        then ram_write env f f.txbuf.data f.txbuf.length else (true, f)).2.txbuf.length
          + length) % env.SIZE_MOD ≤
        (if f.txbuf.length ≠ 0 ∧
          (f.txbuf.length + length) % env.SIZE_MOD > f.txbuf.max_length
        then ram_write env f f.txbuf.data f.txbuf.length else (true, f)).2.txbuf.max_length) := by
  by_cases c : f.txbuf.length ≠ 0 ∧
      (f.txbuf.length + length) % env.SIZE_MOD > f.txbuf.max_length
  · rw [if_pos c]
    refine ⟨ram_write_sinv env cap f _ _ h, ram_write_pinv env f _ _,
      (ram_write_max_length env f _ _).2.2.1, fun ht => ?_⟩
    rcases ram_write_txbuf env f f.txbuf.data f.txbuf.length with ⟨-, t, -⟩ | ⟨t, -⟩
    · exact Or.inl t
    · rw [t] at ht; exact absurd ht (by simp)
  · rw [if_neg c]
    refine ⟨h, fun hp => hp, rfl, fun _ => ?_⟩
    by_cases h0 : f.txbuf.length = 0
    · exact Or.inl h0
    · refine Or.inr ?_
      show (f.txbuf.length + length) % env.SIZE_MOD ≤ f.txbuf.max_length
      by_contra hc
      exact c ⟨h0, by omega⟩

theorem fs_write_sinv (env : Env) (cap : Nat) (f : ram_file_t) (buffer : List Byte)
    (size count : Nat) (h : SInv cap f) :
    SInv cap (fs_write env f buffer size count).2 ∧
    (PInv f → size * count + cap < env.SIZE_MOD →
      PInv (fs_write env f buffer size count).2) := by
  unfold fs_write
  simp only
  by_cases c1 : (size * count) % env.SIZE_MOD = 0 ∨ f.file.handle = 0
  · rw [if_pos c1]; exact ⟨h, fun hp _ => hp⟩
  · rw [if_neg c1]
    obtain ⟨gi, gp, gf, gt⟩ := fs_write_flushed env cap f ((size * count) % env.SIZE_MOD) h
    generalize (if f.txbuf.length ≠ 0 ∧
        (f.txbuf.length + (size * count) % env.SIZE_MOD) % env.SIZE_MOD > f.txbuf.max_length
      then ram_write env f f.txbuf.data f.txbuf.length else (true, f)) = flushed at gi gp gf gt
    by_cases c2 : flushed.1 = false
    · rw [if_pos c2]; exact ⟨gi, fun hp _ => gp hp⟩
    · rw [if_neg c2]
      have ht := gt (by simpa using c2)
      by_cases c3 : flushed.2.txbuf.length = 0 ∧
          (size * count) % env.SIZE_MOD > flushed.2.txbuf.max_length
      · rw [if_pos c3]
        exact ⟨ram_write_sinv env cap _ _ _ gi, fun hp _ => ram_write_pinv env _ _ _ (gp hp)⟩
      · rw [if_neg c3]
        obtain ⟨g1, g2, g3, g4⟩ := gi
        have hle : (flushed.2.txbuf.length + (size * count) % env.SIZE_MOD) % env.SIZE_MOD ≤
            flushed.2.txbuf.max_length := by
          rcases ht with t0 | t
          · rw [t0, Nat.zero_add, Nat.mod_mod]
            by_contra hc
            exact c3 ⟨t0, by omega⟩
          · exact t
        refine ⟨⟨?_, hle, g3, g4⟩, fun hp hsz => ?_⟩
        · show (match flushed.2.txbuf.s with
            | some o => memcpy flushed.2.txbuf.data o buffer ((size * count) % env.SIZE_MOD)
            | none => flushed.2.txbuf.data).length = cap
          cases flushed.2.txbuf.s with
          | none => exact g1
          | some o => simp only [memcpy, store_length]; exact g1
        · intro hh
          have hs := gp hp hh
          have hml := Nat.mod_le (size * count) env.SIZE_MOD
          have hnw : (flushed.2.txbuf.length + (size * count) % env.SIZE_MOD) % env.SIZE_MOD =
              flushed.2.txbuf.length + (size * count) % env.SIZE_MOD :=
            Nat.mod_eq_of_lt (by omega)
          show Option.map (fun o => o + (size * count) % env.SIZE_MOD) flushed.2.txbuf.s =
            some ((flushed.2.txbuf.length + (size * count) % env.SIZE_MOD) % env.SIZE_MOD)
          rw [hs, hnw]
          rfl
theorem step_sinv (env : Env) (cap : Nat) (f : ram_file_t) (op : Op) (h : SInv cap f) :
    SInv cap (step env f op) ∧ (PInv f → op.sized env cap → PInv (step env f op)) := by
  cases op with
  | fopen filename mode =>
    obtain ⟨h1, h2, h3, h4⟩ := h
    simp only [step, fs_open]
    by_cases hw : mode_has_w mode = true
    · by_cases hh : f.file.handle = 0
      · simp only [hw, hh, ne_eq, not_true_eq_false, if_false, if_true]
        refine ⟨⟨h1, Nat.zero_le _, by simp only; omega, fun _ => h1⟩, fun _ _ _ => rfl⟩
      · simp only [hw, hh, ne_eq, not_false_eq_true, if_true]
        exact ⟨⟨h1, h2, h3, h4⟩, fun hp _ => hp⟩
    · simp only [hw]
      exact ⟨⟨h1, h2, h3, h4⟩, fun hp _ => hp⟩
  | fclose =>
    simp only [step, fs_close]
    split_ifs
    · exact ⟨ram_write_sinv env cap f _ _ h, fun hp _ => ram_write_pinv env f _ _ hp⟩
    · exact ⟨h, fun hp _ => hp⟩
    · exact ⟨⟨h.array, h.fits, h.max, fun hc => absurd rfl hc⟩, fun _ _ hc => absurd rfl hc⟩
  | fread size count =>
    obtain ⟨h1, h2, h3, h4⟩ := h
    simp only [step, fs_read]
    cases f.pos <;> exact ⟨⟨h1, h2, h3, h4⟩, fun hp _ => hp⟩
  | fwrite buffer size count =>
    obtain ⟨a, b⟩ := fs_write_sinv env cap f buffer size count h
    exact ⟨a, fun hp hs => b hp hs⟩
  | funlink filename =>
    exact ⟨⟨h.array, h.fits, h.max, fun hc => absurd rfl hc⟩, fun _ _ hc => absurd rfl hc⟩
  | reset =>
    exact ⟨⟨h.array, h.fits, h.max, fun hc => absurd rfl hc⟩, fun _ _ hc => absurd rfl hc⟩

theorem run_sinv (env : Env) (cap : Nat) (ops : List Op) :
    ∀ f : ram_file_t, SInv cap f →
      SInv cap (run env f ops) ∧
      (PInv f → (∀ op ∈ ops, op.sized env cap) → PInv (run env f ops)) := by
  induction ops with
  | nil => intro f h; exact ⟨h, fun hp _ => hp⟩
  | cons op ops ih =>
    intro f h
    obtain ⟨a, b⟩ := step_sinv env cap f op h
    obtain ⟨c, d⟩ := ih _ a
    exact ⟨c, fun hp hs => d (b hp (hs op (List.mem_cons_self _ _)))
      (fun x hx => hs x (List.mem_cons_of_mem _ hx))⟩

theorem v_file_init_sinv (cap : Nat) : SInv cap (v_file_init cap) ∧ PInv (v_file_init cap) :=
  ⟨⟨by simp [v_file_init], Nat.le_refl _, Nat.zero_le _, fun hc => absurd rfl hc⟩,
    fun hc => absurd rfl hc⟩

/-- When `fs_write` reaches its `memcpy` into the staging array, it returns the
requested length, which is the number of bytes the `memcpy` copies. -/
theorem fs_write_append_ret (env : Env) (f : ram_file_t) (buffer : List Byte)
    (size count o n : Nat) (h : fs_write_append env f size count = some (o, n)) :
    n = (size * count) % env.SIZE_MOD ∧ (fs_write env f buffer size count).1 = n := by
  unfold fs_write_append at h
  unfold fs_write
  simp only at h ⊢
  by_cases c1 : (size * count) % env.SIZE_MOD = 0 ∨ f.file.handle = 0
  · rw [if_pos c1] at h; exact absurd h (by simp)
  · rw [if_neg c1] at h ⊢
    generalize (if f.txbuf.length ≠ 0 ∧
        (f.txbuf.length + (size * count) % env.SIZE_MOD) % env.SIZE_MOD > f.txbuf.max_length
      then ram_write env f f.txbuf.data f.txbuf.length else (true, f)) = flushed at h ⊢
    by_cases c2 : flushed.1 = false
    · rw [if_pos c2] at h; exact absurd h (by simp)
    · rw [if_neg c2] at h ⊢
      by_cases c3 : flushed.2.txbuf.length = 0 ∧
          (size * count) % env.SIZE_MOD > flushed.2.txbuf.max_length
      · rw [if_pos c3] at h; exact absurd h (by simp)
      · rw [if_neg c3] at h ⊢
        cases hs : flushed.2.txbuf.s with
        | none => rw [hs] at h; exact absurd h (by simp)
        | some p =>
          rw [hs] at h
          simp only [Option.map_some', Option.some.injEq, Prod.mk.injEq] at h
          exact ⟨h.2.symm, h.2⟩

/-- In a state with the staging bounds and the write pointer at the used
length, the `memcpy` of a write whose size leaves room for the staging array
in the address space stays inside the array. -/
theorem fs_write_append_fits (env : Env) (cap : Nat) (f : ram_file_t)
    (size count o n : Nat) (hi : SInv cap f) (hp : PInv f)
    (hsz : size * count + cap < env.SIZE_MOD)
    (h : fs_write_append env f size count = some (o, n)) :
    o + n ≤ f.txbuf.data.length := by
  unfold fs_write_append at h
  simp only at h
  by_cases c1 : (size * count) % env.SIZE_MOD = 0 ∨ f.file.handle = 0
  · rw [if_pos c1] at h; exact absurd h (by simp)
  · rw [if_neg c1] at h
    obtain ⟨gi, gp, gf, gt⟩ := fs_write_flushed env cap f ((size * count) % env.SIZE_MOD) hi
    generalize (if f.txbuf.length ≠ 0 ∧
        (f.txbuf.length + (size * count) % env.SIZE_MOD) % env.SIZE_MOD > f.txbuf.max_length
      then ram_write env f f.txbuf.data f.txbuf.length else (true, f)) = flushed
      at h gi gp gf gt
    by_cases c2 : flushed.1 = false
    · rw [if_pos c2] at h; exact absurd h (by simp)
    · rw [if_neg c2] at h
      by_cases c3 : flushed.2.txbuf.length = 0 ∧
          (size * count) % env.SIZE_MOD > flushed.2.txbuf.max_length
      · rw [if_pos c3] at h; exact absurd h (by simp)
      · rw [if_neg c3] at h
        have hh : flushed.2.file.handle ≠ 0 := by
          rw [gf]; exact fun h0 => c1 (Or.inr h0)
        rw [gp hp hh] at h
        simp only [Option.map_some', Option.some.injEq, Prod.mk.injEq] at h
        obtain ⟨g1, g2, g3, -⟩ := gi
        have ht := gt (by simpa using c2)
        have hml := Nat.mod_le (size * count) env.SIZE_MOD
        have hnw : (flushed.2.txbuf.length + (size * count) % env.SIZE_MOD) % env.SIZE_MOD =
            flushed.2.txbuf.length + (size * count) % env.SIZE_MOD :=
          Nat.mod_eq_of_lt (by omega)
        rw [hnw] at ht
        have ha := hi.array
        rw [← h.1, ← h.2, ha]
        rcases ht with t0 | t
        · have : (size * count) % env.SIZE_MOD ≤ flushed.2.txbuf.max_length := by
            by_contra hc
            exact c3 ⟨t0, by omega⟩
          omega
        · omega
/-- C14 (staging bound).  In every reachable state, with or without
allocation failures and whatever the write lengths, the used length of the
staging buffer is within `max_length`, which is within the capacity and equal
to it whenever the handle flag is set.  For the writes a caller can make,
whose buffer of `size * count` bytes lies in the same address space as the
staging array (so `size * count + capacity <= SIZE_MAX`, and in particular
`size * count` does not overflow), the `memcpy` that appends to the staging
array always stays inside the array. -/
theorem staging_bound (env : Env) (cap : Nat) :
    (∀ f : ram_file_t, Reachable env cap f →
      f.txbuf.length ≤ f.txbuf.max_length ∧ f.txbuf.max_length ≤ cap ∧
      f.txbuf.data.length = cap ∧ (f.file.handle ≠ 0 → f.txbuf.max_length = cap)) ∧
    (∀ ops : List Op, (∀ op ∈ ops, op.sized env cap) →
      ∀ size count o n : Nat, size * count + cap < env.SIZE_MOD →
        fs_write_append env (run env (v_file_init cap) ops) size count = some (o, n) →
        o + n ≤ cap) := by
  constructor
  · rintro f ⟨ops, rfl⟩
    obtain ⟨⟨a, b, c, d⟩, -⟩ := run_sinv env cap ops _ (v_file_init_sinv cap).1
    exact ⟨b, c, a, d⟩
  · intro ops hs size count o n hsz h
    obtain ⟨hi, hp⟩ := run_sinv env cap ops _ (v_file_init_sinv cap).1
    have := fs_write_append_fits env cap _ size count o n hi
      (hp (v_file_init_sinv cap).2 hs) hsz h
    rw [hi.array] at this
    exact this

/-- Witness of C14: with `"hello "` staged in an 8-byte staging
array, a write of 2 bytes is appended at offset 6 and fills the array. -/
theorem staging_bound_witness :
    (Reachable env32 8 hello_writing ∧
      fs_write_append env32
        (run env32 (v_file_init 8) [.fopen "/ram/f" "w", .fwrite hello 1 6]) 1 2 =
          some (6, 2)) ∧
    (hello_writing.txbuf.length ≤ hello_writing.txbuf.max_length ∧
      hello_writing.txbuf.max_length ≤ 8 ∧
      hello_writing.txbuf.data.length = 8 ∧
      (hello_writing.file.handle ≠ 0 → hello_writing.txbuf.max_length = 8)) ∧
    6 + 2 ≤ 8 :=
  have hr : Reachable env32 8 hello_writing :=
    ⟨[.fopen "/ram/f" "w", .fwrite hello 1 6], rfl⟩
  have ha : fs_write_append env32
      (run env32 (v_file_init 8) [.fopen "/ram/f" "w", .fwrite hello 1 6]) 1 2 =
        some (6, 2) := by decide
  ⟨⟨hr, ha⟩, (staging_bound env32 8).1 hello_writing hr,
    (staging_bound env32 8).2 [.fopen "/ram/f" "w", .fwrite hello 1 6]
      (by
        intro op hop
        simp only [List.mem_cons, List.mem_singleton, List.not_mem_nil, or_false] at hop
        rcases hop with rfl | rfl
        · trivial
        · show 1 * 6 + 8 < env32.SIZE_MOD
          decide)
      1 2 6 2 (by decide) ha⟩
/-! ## Supporting facts on the failure paths -/

theorem ram_write_false (env : Env) (f : ram_file_t) (s : List Byte) (n : Nat)
    (h : (ram_write env f s n).1 = false) :
    (ram_write env f s n).2.data = none ∧ (ram_write env f s n).2.len = 0 ∧
    (ram_write env f s n).2.txbuf = f.txbuf := by
  unfold ram_write realloc at h ⊢
  cases hok : env.realloc_ok f.heap_calls with
  | false => simp
  | true => rw [hok] at h; simp at h

/-- A `fs_write` of a non-zero length with a handle out that returns 0 has
failed in an allocation: the committed store is empty afterwards. -/
theorem fs_write_failure_clears_store (env : Env) (f : ram_file_t) (buffer : List Byte)
    (size count : Nat) (hh : f.file.handle ≠ 0) (hn : (size * count) % env.SIZE_MOD ≠ 0)
    (h0 : (fs_write env f buffer size count).1 = 0) :
    (fs_write env f buffer size count).2.data = none ∧
    (fs_write env f buffer size count).2.len = 0 := by
  unfold fs_write at h0 ⊢
  simp only at h0 ⊢
  have c1 : ¬ ((size * count) % env.SIZE_MOD = 0 ∨ f.file.handle = 0) := by
    simp [hn, hh]
  rw [if_neg c1] at h0 ⊢
  have hfl : ∀ x : Bool × ram_file_t,
      x = (if f.txbuf.length ≠ 0 ∧
          (f.txbuf.length + (size * count) % env.SIZE_MOD) % env.SIZE_MOD > f.txbuf.max_length
        then ram_write env f f.txbuf.data f.txbuf.length else (true, f)) →
      x.1 = false → x.2.data = none ∧ x.2.len = 0 := by
    intro x hx hx1
    split_ifs at hx
    · rw [hx] at hx1 ⊢
      exact ⟨(ram_write_false env f _ _ hx1).1, (ram_write_false env f _ _ hx1).2.1⟩
    · rw [hx] at hx1; simp at hx1
  generalize (if f.txbuf.length ≠ 0 ∧
      (f.txbuf.length + (size * count) % env.SIZE_MOD) % env.SIZE_MOD > f.txbuf.max_length
    then ram_write env f f.txbuf.data f.txbuf.length else (true, f)) = flushed at h0 hfl ⊢
  by_cases c2 : flushed.1 = false
  · rw [if_pos c2]
    exact hfl flushed rfl c2
  · rw [if_neg c2] at h0 ⊢
    by_cases c3 : flushed.2.txbuf.length = 0 ∧
        (size * count) % env.SIZE_MOD > flushed.2.txbuf.max_length
    · rw [if_pos c3] at h0 ⊢
      have hr : (ram_write env flushed.2 buffer ((size * count) % env.SIZE_MOD)).1 = false := by
        by_contra hc
        simp only [Bool.not_eq_false] at hc
        rw [hc] at h0
        simp only [if_true] at h0
        exact hn h0
      exact ⟨(ram_write_false env _ _ _ hr).1, (ram_write_false env _ _ _ hr).2.1⟩
    · rw [if_neg c3] at h0
      exact absurd h0 hn

/-- A write-mode `fs_open` rejected inside a write session changes nothing. -/
theorem fs_open_w_rejected_writing (f : ram_file_t) (filename mode : String)
    (hh : f.file.handle ≠ 0) (hw : mode_has_w mode = true) (hf : f.write = true) :
    fs_open f filename mode = (none, f) := by
  obtain ⟨data, pos, write, len, remaining, file, txbuf, heap_calls⟩ := f
  simp only at hh hf
  subst hf
  simp [fs_open, hw, hh]
end FsRam
